import Mathlib

/-
  Verification of the Instagram scraping orchestration engine
  (fabiojrbraga/instagram-scraper) against its specification.

  The development shallowly embeds the pure logic of the Python sources:
  - app/scraper/instagram_scraper.py (time parsing, recency window, merge,
    persistence of posts/interactions)
  - app/scraper/browser_use_agent.py (login retry classification, session
    acquisition, JSON recovery)
  - app/api/routes.py (background job orchestration)
  - app/models.py and app/database.py (schema facts)

  Machine floats are modelled by exact rationals, database stores by lists of
  records with explicit commit/rollback, and external effects (network, agent
  runs) by explicit outcome parameters.  Strings are worked with as `List Char`
  (`String.data`) so that the scanning loops of the source can be modelled by
  structural recursion.
-/

set_option maxRecDepth 40000

/-! ## Python-style character and string primitives -/

theorem char_toNat_ofNat {n : Nat} (h2 : n < 55296) : (Char.ofNat n).toNat = n := by
  have hv : n.isValidChar := Or.inl h2
  rw [Char.ofNat, dif_pos hv]
  simp [Char.ofNatAux, Char.toNat, UInt32.toNat]

/-- ASCII lowercase conversion of one character, as Python str.lower does for
ASCII input (the strings the sources compare in lowercase are ASCII). -/
def lowerChar (c : Char) : Char :=
  if 65 ≤ c.toNat ∧ c.toNat ≤ 90 then Char.ofNat (c.toNat + 32) else c

/-- Python str.lower on a character list. -/
def strLower (s : List Char) : List Char := s.map lowerChar

/-- Whitespace as recognised by Python str.strip / regex \s (ASCII subset). -/
def pySpace (c : Char) : Bool :=
  c = ' ' ∨ c = '\t' ∨ c = '\n' ∨ c = '\r' ∨ c = '\x0b' ∨ c = '\x0c'

/-- Python str.strip: drop whitespace from both ends. -/
def pyStrip (s : List Char) : List Char :=
  ((s.dropWhile pySpace).reverse.dropWhile pySpace).reverse

/-- Python str.lstrip("@"): drop leading at-signs. -/
def pyLstripAt (s : List Char) : List Char := s.dropWhile (· = '@')

/-- Python str.rstrip("/"): drop trailing slashes. -/
def pyRstripSlash (s : List Char) : List Char :=
  (s.reverse.dropWhile (· = '/')).reverse

/-- Python substring containment `pat in s`. -/
def containsSub (s pat : List Char) : Bool :=
  s.tails.any (fun t => pat.isPrefixOf t)

theorem lowerChar_idem (c : Char) : lowerChar (lowerChar c) = lowerChar c := by
  unfold lowerChar
  split
  · next h =>
    have hv : (Char.ofNat (c.toNat + 32)).toNat = c.toNat + 32 :=
      char_toNat_ofNat (by omega)
    rw [if_neg]
    omega
  · rfl

theorem strLower_idem (s : List Char) : strLower (strLower s) = strLower s := by
  simp [strLower, Function.comp, lowerChar_idem]

theorem isDigit_toNat {c : Char} (h : c.isDigit) :
    48 ≤ c.toNat ∧ c.toNat ≤ 57 := by
  simp only [Char.isDigit, Bool.and_eq_true, decide_eq_true_eq, ge_iff_le] at h
  obtain ⟨h1, h2⟩ := h
  rw [UInt32.le_def, BitVec.le_def] at h1 h2
  exact ⟨h1, h2⟩

theorem lowerChar_digit {c : Char} (h : c.isDigit) : lowerChar c = c := by
  obtain ⟨h1, h2⟩ := isDigit_toNat h
  unfold lowerChar
  rw [if_neg]
  omega

/-! ## C1 — schema facts for `Interaction` persistence

`app/models.py` declares the ORM columns of `Interaction` (lines 78-103).
`app/database.py::_ensure_interactions_post_url_column` additionally adds a raw
`post_url` column and the unique index
`uq_interactions_post_url_user_url_type (post_url, user_url, interaction_type)`
to the physical table (lines 83-126), but never to the ORM class.
`app/scraper/instagram_scraper.py::_save_posts_and_interactions`
(lines 1444-1544) builds its dedupe query and its insert from ORM attributes.
-/

/-- The column attributes declared on the `Interaction` ORM model
(app/models.py lines 78-103; `metadata_json` is mapped to column
"metadata"). -/
def interaction_model_columns : List String :=
  ["id", "post_id", "profile_id", "user_username", "user_url", "user_bio",
   "user_is_private", "user_follower_count", "interaction_type",
   "comment_text", "comment_likes", "comment_replies", "created_at",
   "updated_at", "metadata"]

/-- The ORM attributes referenced by the dedupe lookup of
`_save_posts_and_interactions` (instagram_scraper.py lines 1511-1522):
`Interaction.user_url`, `Interaction.interaction_type`,
`Interaction.post_url` and `Interaction.post_id`. -/
def save_interactions_lookup_attributes : List String :=
  ["user_url", "interaction_type", "post_url", "post_id"]

/-- The keyword arguments passed to the `Interaction(...)` constructor by
`_save_posts_and_interactions` (instagram_scraper.py lines 1525-1536). -/
def save_interactions_insert_attributes : List String :=
  ["post_id", "profile_id", "post_url", "user_username", "user_url",
   "interaction_type", "comment_text", "comment_likes", "comment_replies",
   "comment_posted_at"]

/-- The columns the schema migration
`_ensure_interactions_post_url_column` adds to the physical `interactions`
table (app/database.py lines 96-100) without touching the ORM class. -/
def interactions_migration_added_columns : List String := ["post_url"]

/-! ## C9 — login retry classification and bounded retry loop

From `app/scraper/browser_use_agent.py`: `_should_retry_login_error`
(lines 678-691), the retry loop of `ensure_instagram_session`
(lines 751-771), and the invalid-credentials error raised by
`_login_and_save_session` (line 833).
-/

/-- The retryable transport/protocol markers of `_should_retry_login_error`
(browser_use_agent.py lines 680-690). -/
def login_retry_markers : List String :=
  ["root cdp client not initialized",
   "failed to establish cdp connection",
   "connectionclosederror",
   "protocol error",
   "reserved bits must be 0",
   "sent 1002",
   "client is stopping",
   "websocket",
   "navigation failed"]

/-- `_should_retry_login_error`: lowercases the exception text and checks the
marker substrings (browser_use_agent.py lines 678-691). -/
def should_retry_login_error (message : String) : Bool :=
  login_retry_markers.any (fun m => containsSub (strLower message.data) m.data)

/-- The invalid-credentials error raised by `_login_and_save_session` when the
agent reports LOGIN_INVALID (browser_use_agent.py line 833). -/
def login_invalid_message : String :=
  "Login invalido detectado pelo agente."

/-- Result of the bounded login retry loop: the final outcome (`none` when the
loop body never ran, mirroring `max_retries = 0`), how many login attempts
were made, and the backoff delays slept between attempts. -/
structure LoginLoopResult (σ : Type) where
  outcome : Option (Except String σ)
  attempts_made : Nat
  delays : List Int

/-- One unrolling of the retry loop of `ensure_instagram_session`
(browser_use_agent.py lines 751-771).  `attempt` is the 1-based attempt
counter, `fuel` the number of remaining iterations of
`range(1, max_retries + 1)`.  `login` gives the outcome of
`_login_and_save_session` on each attempt. -/
def login_retry_go (backoff : Int) (maxRetries : Nat)
    (login : Nat → Except String σ) : Nat → Nat → LoginLoopResult σ
  | _, 0 => ⟨none, 0, []⟩
  | attempt, fuel + 1 =>
    match login attempt with
    | .ok s => ⟨some (.ok s), 1, []⟩
    | .error e =>
      if maxRetries ≤ attempt ∨ ¬should_retry_login_error e then
        ⟨some (.error e), 1, []⟩
      else
        let r := login_retry_go backoff maxRetries login (attempt + 1) fuel
        ⟨r.outcome, r.attempts_made + 1, backoff * (attempt : Int) :: r.delays⟩

/-- The retry loop of `ensure_instagram_session` (lines 751-771): attempts
`1 .. max_retries`, breaking on success, on a non-retryable error, or on the
final attempt; the delay before retrying attempt `n + 1` is
`browser_use_retry_backoff * n`. -/
def login_retry_loop (maxRetries : Nat) (backoff : Int)
    (login : Nat → Except String σ) : LoginLoopResult σ :=
  login_retry_go backoff maxRetries login 1 maxRetries

/-! ## C10 — session acquisition guards (`ensure_instagram_session`) -/

/-- Truthiness of an optional string (Python: `None` and `""` are falsy). -/
def optTruthy : Option String → Bool
  | none => false
  | some s => s ≠ ""

/-- Configuration relevant to session acquisition (config.py). -/
structure IgSettings where
  instagram_username : Option String
  instagram_password : Option String
  instagram_session_strict_validation : Bool
  browserless_session_enabled : Bool
  browser_use_max_retries : Nat
  browser_use_retry_backoff : Int

/-- A stored `InstagramSession` row (app/models.py lines 125-138).  The opaque
storage-state JSON blob is a type parameter `σ`; `none` models a null/empty
blob. -/
structure IgSessionRow (σ : Type) where
  rid : Nat
  instagram_username : Option String
  storage_state : Option σ
  is_active : Bool
  last_used_at : Option Int
  updated_at : Int

/-- External effects consumed by `ensure_instagram_session`: live validation,
browserless reconnect, session stop, and the per-attempt outcome of
`_login_and_save_session`. -/
structure SessionExt (σ : Type) where
  is_session_valid : σ → Bool
  reconnect_url : σ → Option String
  refresh_via_reconnect : σ → Option σ
  session_stop_url : σ → Option String
  login : Nat → Except String σ

/-- Result of `ensure_instagram_session`: the returned storage state (or the
raised error), the session store after all commits, and how many login
attempts were navigated. -/
structure EnsureResult (σ : Type) where
  result : Except String (Option σ)
  store : List (IgSessionRow σ)
  login_attempts : Nat

/-- `_get_latest_session` (browser_use_agent.py lines 414-420): the active
session with the greatest `updated_at` (first such row on ties). -/
def get_latest_session (store : List (IgSessionRow σ)) : Option (IgSessionRow σ) :=
  (store.filter (·.is_active)).foldl
    (fun acc r =>
      match acc with
      | none => some r
      | some best => if best.updated_at < r.updated_at then some r else some best)
    none

/-- Update one session row by id. -/
def updateRow (store : List (IgSessionRow σ)) (rid : Nat)
    (f : IgSessionRow σ → IgSessionRow σ) : List (IgSessionRow σ) :=
  store.map (fun r => if r.rid = rid then f r else r)

/-- The db mutation of a successful `_login_and_save_session`
(browser_use_agent.py lines 866-881): deactivate every active session, then
insert one new active session for the configured user. -/
def login_success_store (cfg : IgSettings) (now : Int) (s : σ)
    (store : List (IgSessionRow σ)) : List (IgSessionRow σ) :=
  (store.map (fun r => { r with is_active := false })) ++
    [{ rid := store.length + 1000
       instagram_username := cfg.instagram_username
       storage_state := some s
       is_active := true
       last_used_at := some now
       updated_at := now }]

/-- The tail of `ensure_instagram_session`: run the login retry loop and apply
the success mutation (browser_use_agent.py lines 751-771). -/
def ensure_login_phase (cfg : IgSettings) (ext : SessionExt σ) (now : Int)
    (store : List (IgSessionRow σ)) : EnsureResult σ :=
  let r := login_retry_loop cfg.browser_use_max_retries
    cfg.browser_use_retry_backoff ext.login
  match r.outcome with
  | some (.ok s) => ⟨.ok (some s), login_success_store cfg now s store, r.attempts_made⟩
  | some (.error e) => ⟨.error e, store, r.attempts_made⟩
  | none => ⟨.ok none, store, r.attempts_made⟩

/-- `ensure_instagram_session` (browser_use_agent.py lines 711-771).
`dbPresent = false` models being called with `db=None`; `store` is the
session table reachable through the db handle. -/
def ensure_instagram_session (cfg : IgSettings) (ext : SessionExt σ) (now : Int)
    (dbPresent : Bool) (store : List (IgSessionRow σ)) : EnsureResult σ :=
  if ¬dbPresent then ⟨.ok none, store, 0⟩
  else if ¬optTruthy cfg.instagram_username ∨ ¬optTruthy cfg.instagram_password then
    ⟨.ok none, store, 0⟩
  else
    match get_latest_session store with
    | some ex =>
      match ex.storage_state with
      | some st =>
        if ¬cfg.instagram_session_strict_validation then
          ⟨.ok (some st), updateRow store ex.rid (fun r => { r with last_used_at := some now }), 0⟩
        else if ext.is_session_valid st then
          ⟨.ok (some st), updateRow store ex.rid (fun r => { r with last_used_at := some now }), 0⟩
        else
          match ext.reconnect_url st with
          | some _ =>
            match ext.refresh_via_reconnect st with
            | some st' =>
              ⟨.ok (some st'),
               updateRow store ex.rid
                 (fun r => { r with storage_state := some st', last_used_at := some now }), 0⟩
            | none =>
              ensure_login_phase cfg ext now
                (updateRow store ex.rid (fun r => { r with is_active := false }))
          | none =>
            ensure_login_phase cfg ext now
              (updateRow store ex.rid (fun r => { r with is_active := false }))
      | none => ensure_login_phase cfg ext now store
    | none => ensure_login_phase cfg ext now store

/-! ## C2 — background job orchestration (`_scrape_profile_background`)

From `app/api/routes.py` lines 946-1123 and the target-session check of
`scrape_profile` (instagram_scraper.py lines 697-709).
-/

/-- A `ScrapingJob` row (app/models.py lines 106-122). -/
structure ScrapingJobRow where
  status : String
  started_at : Option Int
  completed_at : Option Int
  error_message : Option String
  posts_scraped : Int
  interactions_scraped : Int

/-- The summary counters a flow result carries (routes.py lines 1090-1095). -/
structure FlowSummary where
  total_posts : Int
  total_interactions : Int
  total_like_users : Int

/-- `_scrape_profile_background` (routes.py lines 946-1123) on a job that was
found: mark it running, run the selected flow, then either record the summary
and complete, or - for any exception escaping the flow - record the message
and fail with a completion timestamp. -/
def scrape_profile_background (job : ScrapingJobRow) (flow : String)
    (startedAt finishedAt : Int) (outcome : Except String FlowSummary) :
    ScrapingJobRow :=
  let running := { job with status := "running", started_at := some startedAt }
  match outcome with
  | .ok summary =>
    { running with
      status := "completed"
      completed_at := some finishedAt
      posts_scraped := summary.total_posts
      interactions_scraped :=
        if flow = "recent_likes" then summary.total_like_users
        else summary.total_interactions }
  | .error e =>
    { running with
      status := "failed"
      error_message := some e
      completed_at := some finishedAt }

/-- The error text raised by `scrape_profile` when the named target session
cannot be satisfied (instagram_scraper.py lines 706-709). -/
def session_unsatisfiable_message (u : String) : String :=
  "Sessao Instagram \x27@" ++ u ++ "\x27 nao encontrada ou invalida."

/-- The target-session step of `scrape_profile` (instagram_scraper.py lines
697-709): when a session username was requested but no storage state was
obtained, raise; otherwise pass the storage state on. -/
def scrape_profile_session_check (session_username : Option String)
    (storage_state : Option σ) : Except String (Option σ) :=
  if optTruthy session_username ∧ storage_state.isNone then
    .error (session_unsatisfiable_message ((session_username).getD ""))
  else
    .ok storage_state

/-! ## Supporting lemmas for the login retry loop -/

theorem login_retry_go_spec (b : Int) (m : Nat) (login : Nat → Except String σ) :
    ∀ f a, 1 ≤ a → a + f = m + 1 →
      (login_retry_go b m login a f).attempts_made ≤ f ∧
      (1 ≤ f → 1 ≤ (login_retry_go b m login a f).attempts_made) ∧
      (∀ i, a ≤ i → i + 1 < a + (login_retry_go b m login a f).attempts_made →
        ∃ e, login i = .error e ∧ should_retry_login_error e = true) ∧
      (login_retry_go b m login a f).delays =
        (List.range ((login_retry_go b m login a f).attempts_made - 1)).map
          (fun (j : Nat) => b * ((a : Int) + (j : Int))) := by
  intro f
  induction f with
  | zero =>
    intro a ha hfa
    refine ⟨by simp [login_retry_go], by omega, ?_, by simp [login_retry_go]⟩
    intro i hi hi2
    simp [login_retry_go] at hi2
    omega
  | succ f ih =>
    intro a ha hfa
    cases hlogin : login a with
    | ok s =>
      have hr : login_retry_go b m login a (f + 1) = ⟨some (.ok s), 1, []⟩ := by
        simp [login_retry_go, hlogin]
      rw [hr]
      refine ⟨?_, ?_, ?_, ?_⟩
      · show (1 : Nat) ≤ f + 1
        omega
      · intro _
        exact le_refl 1
      · intro i hi hi2
        have h2 : i + 1 < a + 1 := hi2
        omega
      · show ([] : List Int) = (List.range (1 - 1)).map
          (fun (j : Nat) => b * ((a : Int) + (j : Int)))
        simp
    | error e =>
      by_cases hstop : m ≤ a ∨ ¬should_retry_login_error e = true
      · have hr : login_retry_go b m login a (f + 1) = ⟨some (.error e), 1, []⟩ := by
          simp only [login_retry_go, hlogin]
          rw [if_pos hstop]
        rw [hr]
        refine ⟨?_, ?_, ?_, ?_⟩
        · show (1 : Nat) ≤ f + 1
          omega
        · intro _
          exact le_refl 1
        · intro i hi hi2
          have h2 : i + 1 < a + 1 := hi2
          omega
        · show ([] : List Int) = (List.range (1 - 1)).map
            (fun (j : Nat) => b * ((a : Int) + (j : Int)))
          simp
      · have hr : login_retry_go b m login a (f + 1) =
            ⟨(login_retry_go b m login (a + 1) f).outcome,
             (login_retry_go b m login (a + 1) f).attempts_made + 1,
             b * (a : Int) :: (login_retry_go b m login (a + 1) f).delays⟩ := by
          simp only [login_retry_go, hlogin]
          rw [if_neg hstop]
        push_neg at hstop
        obtain ⟨ham, hretry⟩ := hstop
        obtain ⟨ih1, ih2, ih3, ih4⟩ := ih (a + 1) (by omega) (by omega)
        have hat1 : 1 ≤ (login_retry_go b m login (a + 1) f).attempts_made :=
          ih2 (by omega)
        rw [hr]
        refine ⟨?_, ?_, ?_, ?_⟩
        · show (login_retry_go b m login (a + 1) f).attempts_made + 1 ≤ f + 1
          omega
        · intro _
          show (1 : Nat) ≤ (login_retry_go b m login (a + 1) f).attempts_made + 1
          omega
        · intro i hi hi2
          have h2 : i + 1 < a + ((login_retry_go b m login (a + 1) f).attempts_made + 1) := hi2
          rcases eq_or_lt_of_le hi with heq | hlt
          · exact ⟨e, heq ▸ hlogin, hretry⟩
          · exact ih3 i (by omega) (by omega)
        · show b * (a : Int) :: (login_retry_go b m login (a + 1) f).delays =
            (List.range ((login_retry_go b m login (a + 1) f).attempts_made + 1 - 1)).map
              (fun (j : Nat) => b * ((a : Int) + (j : Int)))
          rw [ih4]
          have hsub : (login_retry_go b m login (a + 1) f).attempts_made + 1 - 1 =
              ((login_retry_go b m login (a + 1) f).attempts_made - 1) + 1 := by omega
          rw [hsub, List.range_succ_eq_map, List.map_cons, List.map_map]
          simp only [List.cons.injEq]
          constructor
          · simp
          · apply List.map_congr_left
            intro j _
            simp only [Function.comp_apply]
            push_cast
            ring

theorem login_retry_go_fatal (b : Int) (m : Nat) (login : Nat → Except String σ)
    (a f : Nat) (e : String) (hf : 1 ≤ f) (hlogin : login a = .error e)
    (hnr : should_retry_login_error e = false) :
    login_retry_go b m login a f = ⟨some (.error e), 1, []⟩ := by
  cases f with
  | zero => omega
  | succ f =>
    simp only [login_retry_go, hlogin]
    rw [if_pos (Or.inr (by simp [hnr]))]

/-- C9: login through the Navigation Agent is retried, up to the configured
maximum attempt count with backoff delays `backoff * attempt`, only when the
raised error matches a retryable transport/protocol signature
(`_should_retry_login_error`); the invalid-credentials error raised by
`_login_and_save_session` matches no retryable signature, so it is fatal and
the loop makes no further attempt and re-raises it. -/
theorem C9_login_retry_only_on_retryable_errors
    (σ : Type) (m : Nat) (b : Int) (login : Nat → Except String σ) :
    ((login_retry_loop m b login).attempts_made ≤ m) ∧
    (∀ i, 1 ≤ i → i + 1 < 1 + (login_retry_loop m b login).attempts_made →
      ∃ e, login i = .error e ∧ should_retry_login_error e = true) ∧
    ((login_retry_loop m b login).delays =
      (List.range ((login_retry_loop m b login).attempts_made - 1)).map
        (fun (j : Nat) => b * (1 + (j : Int)))) ∧
    (should_retry_login_error login_invalid_message = false) ∧
    (1 ≤ m → login 1 = .error login_invalid_message →
      login_retry_loop m b login =
        ⟨some (.error login_invalid_message), 1, []⟩) := by
  obtain ⟨h1, _, h3, h4⟩ :=
    login_retry_go_spec b m login m 1 (le_refl 1) (by omega)
  refine ⟨h1, h3, h4, by decide, ?_⟩
  intro hm hlogin
  exact login_retry_go_fatal b m login 1 m login_invalid_message hm hlogin (by decide)

/-- C9 witness: with three configured attempts, a first-attempt
invalid-credentials error is fatal - exactly one attempt is made, no backoff
delay is slept, and the invalid-credentials error is re-raised. -/
theorem C9_login_retry_witness :
    login_retry_loop (σ := Unit) 3 2
        (fun _ => .error login_invalid_message) =
      ⟨some (.error login_invalid_message), 1, []⟩ :=
  (C9_login_retry_only_on_retryable_errors Unit 3 2
      (fun _ => .error login_invalid_message)).2.2.2.2
    (by decide) rfl

/-- C1: the (post URL, user URL, kind) dedupe lookup and the insert performed
by `_save_posts_and_interactions` reference the ORM attributes `post_url` and
`comment_posted_at`, but the `Interaction` ORM model declares neither column
(`post_url` exists only as a raw table column added by the migration, and
`comment_posted_at` exists nowhere), so the upsert raises instead of being an
idempotent no-op. -/
theorem C1_interaction_upsert_references_undeclared_columns :
    "post_url" ∈ save_interactions_lookup_attributes ∧
    "post_url" ∈ save_interactions_insert_attributes ∧
    "post_url" ∉ interaction_model_columns ∧
    "post_url" ∈ interactions_migration_added_columns ∧
    "comment_posted_at" ∈ save_interactions_insert_attributes ∧
    "comment_posted_at" ∉ interaction_model_columns ∧
    "comment_posted_at" ∉ interactions_migration_added_columns := by
  decide

/-- C10: when no database session is provided, or the configured Instagram
username or password is missing, `ensure_instagram_session` returns `None`
without raising, leaves the session store untouched, and performs zero login
attempts. -/
theorem C10_missing_config_returns_none_without_side_effects
    (σ : Type) (cfg : IgSettings) (ext : SessionExt σ) (now : Int)
    (dbPresent : Bool) (store : List (IgSessionRow σ))
    (h : dbPresent = false ∨ optTruthy cfg.instagram_username = false ∨
      optTruthy cfg.instagram_password = false) :
    ensure_instagram_session cfg ext now dbPresent store =
      ⟨.ok none, store, 0⟩ := by
  unfold ensure_instagram_session
  rcases h with h | h | h
  · rw [if_pos (by simp [h])]
  · by_cases hdb : dbPresent
    · rw [if_neg (by simp [hdb]), if_pos (by left; simp [h])]
    · rw [if_pos (by simp [hdb])]
  · by_cases hdb : dbPresent
    · rw [if_neg (by simp [hdb]), if_pos (by right; simp [h])]
    · rw [if_pos (by simp [hdb])]

/-- C10 witness: with a present db handle but an unconfigured password,
acquisition over a store holding one active session returns `None`, keeps the
store unchanged and never navigates a login. -/
theorem C10_missing_config_witness :
    ensure_instagram_session (σ := Unit)
        ⟨some "bot", none, true, false, 3, 2⟩
        ⟨fun _ => false, fun _ => none, fun _ => none, fun _ => none,
          fun _ => .error "x"⟩
        0 true [⟨1, some "bot", some (), true, none, 0⟩] =
      ⟨.ok none, [⟨1, some "bot", some (), true, none, 0⟩], 0⟩ :=
  C10_missing_config_returns_none_without_side_effects Unit
    ⟨some "bot", none, true, false, 3, 2⟩
    ⟨fun _ => false, fun _ => none, fun _ => none, fun _ => none,
      fun _ => .error "x"⟩
    0 true [⟨1, some "bot", some (), true, none, 0⟩]
    (Or.inr (Or.inr (by decide)))

/-- C2: whenever an exception escapes the selected flow, the background
orchestrator transitions the job to `failed`, records the exception text and
a completion timestamp, and never leaves it `completed` or `running`; the
unresolvable-target-session condition of `scrape_profile` raises exactly the
non-empty message `session_unsatisfiable_message`. -/
theorem C2_flow_failure_marks_job_failed :
    (∀ (job : ScrapingJobRow) (flow : String) (t0 t1 : Int) (e : String),
      (scrape_profile_background job flow t0 t1 (.error e)).status = "failed" ∧
      (scrape_profile_background job flow t0 t1 (.error e)).error_message = some e ∧
      (scrape_profile_background job flow t0 t1 (.error e)).completed_at = some t1 ∧
      (scrape_profile_background job flow t0 t1 (.error e)).status ≠ "completed" ∧
      (scrape_profile_background job flow t0 t1 (.error e)).status ≠ "running") ∧
    (∀ u : String, session_unsatisfiable_message u ≠ "") ∧
    (∀ u : String, u ≠ "" →
      scrape_profile_session_check (σ := Unit) (some u) none =
        .error (session_unsatisfiable_message u)) := by
  refine ⟨?_, ?_, ?_⟩
  · intro job flow t0 t1 e
    refine ⟨rfl, rfl, rfl, ?_, ?_⟩
    · show ("failed" : String) ≠ "completed"
      decide
    · show ("failed" : String) ≠ "running"
      decide
  · intro u h
    have hlen : (session_unsatisfiable_message u).length = 0 := by rw [h]; rfl
    unfold session_unsatisfiable_message at hlen
    rw [String.length_append, String.length_append] at hlen
    have h19 : ("Sessao Instagram \x27@" : String).length = 19 := rfl
    omega
  · intro u hu
    unfold scrape_profile_session_check
    rw [if_pos]
    · simp
    · exact ⟨by simpa [optTruthy] using hu, rfl⟩

/-- C2 witness: a concrete pending job hit by the concrete
unresolvable-session error ends failed, with that non-empty message and a
completion timestamp, and the session check raises exactly that message. -/
theorem C2_flow_failure_witness :
    ((scrape_profile_background ⟨"pending", none, none, none, 0, 0⟩ "default"
        5 9 (.error (session_unsatisfiable_message "acme"))).status = "failed" ∧
      (scrape_profile_background ⟨"pending", none, none, none, 0, 0⟩ "default"
        5 9 (.error (session_unsatisfiable_message "acme"))).error_message =
          some (session_unsatisfiable_message "acme") ∧
      (scrape_profile_background ⟨"pending", none, none, none, 0, 0⟩ "default"
        5 9 (.error (session_unsatisfiable_message "acme"))).completed_at = some 9 ∧
      (scrape_profile_background ⟨"pending", none, none, none, 0, 0⟩ "default"
        5 9 (.error (session_unsatisfiable_message "acme"))).status ≠ "completed" ∧
      (scrape_profile_background ⟨"pending", none, none, none, 0, 0⟩ "default"
        5 9 (.error (session_unsatisfiable_message "acme"))).status ≠ "running") ∧
    session_unsatisfiable_message "acme" ≠ "" ∧
    scrape_profile_session_check (σ := Unit) (some "acme") none =
      .error (session_unsatisfiable_message "acme") :=
  ⟨(C2_flow_failure_marks_job_failed).1 ⟨"pending", none, none, none, 0, 0⟩
      "default" 5 9 (session_unsatisfiable_message "acme"),
    (C2_flow_failure_marks_job_failed).2.1 "acme",
    (C2_flow_failure_marks_job_failed).2.2 "acme" (by decide)⟩

/-! ## Time and date machinery of `instagram_scraper.py`

`_relative_time_to_hours` (lines 398-443), `_parse_absolute_date`
(lines 445-569) and `_is_recent_post` (lines 571-613).  Regex scanning is
modelled by explicit structural scanners over `List Char`; `re`'s word
boundary `\b` uses the word-character class below.
-/

/-- Word characters for the regex `\b` boundary: ASCII alphanumerics plus
underscore plus the Latin-1 letters (Python's `\w` is full Unicode; the
sources only need the Latin-1 range, e.g. for "mês" and "há"). -/
def isWordChar (c : Char) : Bool :=
  c.isAlphanum ∨ c = '_' ∨
    (0xC0 ≤ c.toNat ∧ c.toNat ≤ 0xFF ∧ c.toNat ≠ 0xD7 ∧ c.toNat ≠ 0xF7)

/-- A word boundary follows the matched token `t` in `s`: end of input or a
non-word character. -/
def boundaryAfterTok (t s : List Char) : Bool :=
  match s.drop t.length with
  | [] => true
  | c :: _ => ¬isWordChar c

/-- Try the regex alternatives in order at the head of `s`; a match requires
the alternative to be a prefix of `s` followed by a word boundary.  Returns
the matched length. -/
def findTok (alts : List (List Char)) (s : List Char) : Option Nat :=
  match alts with
  | [] => none
  | t :: rest =>
    if t.isPrefixOf s ∧ boundaryAfterTok t s then some t.length
    else findTok rest s

/-- Scanner for `re.sub(r"\b(alt1|alt2|...)\b", "", s)`: walk the string,
removing every word-bounded occurrence of an alternative; `skip` counts
characters still being consumed by a match, `prevWord` whether the previous
character of the original string was a word character. -/
def removeGo (alts : List (List Char)) : List Char → Nat → Bool → List Char
  | [], _, _ => []
  | c :: cs, skip + 1, _ => removeGo alts cs skip (isWordChar c)
  | c :: cs, 0, prevWord =>
    if prevWord then c :: removeGo alts cs 0 (isWordChar c)
    else
      match findTok alts (c :: cs) with
      | some n => removeGo alts cs (n - 1) (isWordChar c)
      | none => c :: removeGo alts cs 0 (isWordChar c)

/-- `re.sub` of a word-bounded alternative group by the empty string. -/
def removeWordTokens (alts : List (List Char)) (s : List Char) : List Char :=
  removeGo alts s 0 false

/-- The bullet characters replaced by spaces at line 410. -/
def bulletToSpace (c : Char) : Char :=
  if c = '•' ∨ c = '·' then ' ' else c

/-- Numeric value of a digit run. -/
def digitsToNat (ds : List Char) : Nat :=
  ds.foldl (fun a c => 10 * a + (c.toNat - 48)) 0

/-- Value of the regex capture `\d+(?:[.,]\d+)?` with `,` read as `.`
(lines 437-439): integer part plus decimal fraction. -/
def numberValue (intDs fracDs : List Char) : ℚ :=
  (digitsToNat intDs : ℚ) + (digitsToNat fracDs : ℚ) / (10 ^ fracDs.length)

/-- Whether the unit alternation (followed by `\b`) matches at the head of
`s`. -/
def altBoundary (alts : List (List Char)) (s : List Char) : Bool :=
  (findTok alts s).isSome

/-- Match `(\d+(?:[.,]\d+)?)\s*(?:alt1|alt2|...)\b` anchored at the start of
`s`, returning the numeric value; the optional fraction backtracks as the
regex engine does. -/
def matchNumberUnit (alts : List (List Char)) (s : List Char) : Option ℚ :=
  let p := s.span Char.isDigit
  match p.1 with
  | [] => none
  | _ :: _ =>
    let noFrac : Option ℚ :=
      if altBoundary alts (p.2.dropWhile pySpace) then some (numberValue p.1 [])
      else none
    match p.2 with
    | sep :: r2 =>
      if sep = '.' ∨ sep = ',' then
        let q := r2.span Char.isDigit
        if q.1 ≠ [] ∧ altBoundary alts (q.2.dropWhile pySpace) then
          some (numberValue p.1 q.1)
        else noFrac
      else noFrac
    | [] => noFrac

/-- `re.search` of the number-unit pattern: try every start position, left to
right. -/
def searchNumberUnit (alts : List (List Char)) : List Char → Option ℚ
  | [] => none
  | c :: cs =>
    match matchNumberUnit alts (c :: cs) with
    | some v => some v
    | none => searchNumberUnit alts cs

def seconds_alts : List (List Char) :=
  ["s", "seg", "segs", "segundo", "segundos", "sec", "secs", "second",
   "seconds"].map String.data

def minutes_alts : List (List Char) :=
  ["m", "min", "mins", "minute", "minutes", "minuto", "minutos"].map
    String.data

def hours_alts : List (List Char) :=
  ["h", "hr", "hrs", "hour", "hours", "hora", "horas"].map String.data

def days_alts : List (List Char) :=
  ["d", "day", "days", "dia", "dias"].map String.data

def weeks_alts : List (List Char) :=
  ["w", "wk", "wks", "week", "weeks", "sem", "semana", "semanas"].map
    String.data

def months_alts : List (List Char) :=
  ["mo", "month", "months", "mes", "mês", "meses"].map String.data

def years_alts : List (List Char) :=
  ["y", "yr", "year", "years", "ano", "anos"].map String.data

/-- The unit table of `_relative_time_to_hours` (lines 423-431): alternation
lists with their hour multipliers, tried in this order. -/
def unit_patterns : List (List (List Char) × ℚ) :=
  [(seconds_alts, 1 / 3600),
   (minutes_alts, 1 / 60),
   (hours_alts, 1),
   (days_alts, 24),
   (weeks_alts, 24 * 7),
   (months_alts, 24 * 30),
   (years_alts, 24 * 365)]

/-- The pattern loop of lines 433-441: first pattern whose search hits wins;
its numeric value times the pattern's multiplier is returned. -/
def patterns_loop : List (List (List Char) × ℚ) → List Char → Option ℚ
  | [], _ => none
  | (alts, mult) :: rest, s =>
    match searchNumberUnit alts s with
    | some v => some (v * mult)
    | none => patterns_loop rest s

def edit_alts : List (List Char) := ["editado", "editada", "edited"].map String.data

def ago_alts : List (List Char) := ["ago"].map String.data

def ha_alts : List (List Char) := ["ha", "há"].map String.data

/-- `_relative_time_to_hours` (instagram_scraper.py lines 398-443). -/
def relative_time_to_hours (text : Option String) : Option ℚ :=
  match text with
  | none => none
  | some t =>
    let c0 := strLower (pyStrip t.data)
    if c0 = [] then none
    else
      let c1 := c0.map bulletToSpace
      let c2 := removeWordTokens edit_alts c1
      let c3 := removeWordTokens ago_alts c2
      let c4 := removeWordTokens ha_alts c3
      let cleaned := pyStrip c4
      if cleaned = "now".data ∨ cleaned = "just now".data ∨
          cleaned = "agora".data ∨ cleaned = "agora mesmo".data then some 0
      else if cleaned = "today".data ∨ cleaned = "hoje".data then some 0
      else if cleaned = "yesterday".data ∨ cleaned = "ontem".data then some 24
      else patterns_loop unit_patterns cleaned

/-! ### Calendar arithmetic (for ISO and absolute date resolution)

Dates are modelled as days since the Unix epoch and instants as rational
seconds since the Unix epoch (UTC). -/

/-- Days since 1970-01-01 of a civil date (Howard Hinnant's algorithm). -/
def days_from_civil (y m d : Int) : Int :=
  let y1 := if 2 < m then y else y - 1
  let era := Int.fdiv y1 400
  let yoe := y1 - era * 400
  let mp := Int.emod (m + 9) 12
  let doy := Int.fdiv (153 * mp + 2) 5 + d - 1
  let doe := yoe * 365 + Int.fdiv yoe 4 - Int.fdiv yoe 100 + doy
  era * 146097 + doe - 719468

/-- Civil date (year, month, day) of a day count since 1970-01-01. -/
def civil_from_days (z : Int) : Int × Int × Int :=
  let z1 := z + 719468
  let era := Int.fdiv z1 146097
  let doe := z1 - era * 146097
  let yoe := Int.fdiv (doe - Int.fdiv doe 1460 + Int.fdiv doe 36524 -
    Int.fdiv doe 146096) 365
  let y := yoe + era * 400
  let doy := doe - (365 * yoe + Int.fdiv yoe 4 - Int.fdiv yoe 100)
  let mp := Int.fdiv (5 * doy + 2) 153
  let d := doy - Int.fdiv (153 * mp + 2) 5 + 1
  let m := mp + (if mp < 10 then 3 else -9)
  (if m ≤ 2 then y + 1 else y, m, d)

def is_leap_year (y : Int) : Bool :=
  (Int.emod y 4 = 0 ∧ Int.emod y 100 ≠ 0) ∨ Int.emod y 400 = 0

def days_in_month (y m : Int) : Int :=
  if m = 2 then (if is_leap_year y then 29 else 28)
  else if m = 4 ∨ m = 6 ∨ m = 9 ∨ m = 11 then 30
  else 31

/-- `datetime(year, month, day)` as days since epoch; `none` models the
`ValueError` raised on an invalid date. -/
def mk_date (y m d : Int) : Option Int :=
  if 1 ≤ m ∧ m ≤ 12 ∧ 1 ≤ d ∧ d ≤ days_in_month y m then
    some (days_from_civil y m d)
  else none

/-- The civil day of an instant (`datetime.date()` in UTC). -/
def day_of_instant (t : ℚ) : Int := ⌊t / 86400⌋

/-- The calendar year of an instant (`now.year` in UTC). -/
def year_of_instant (t : ℚ) : Int := (civil_from_days (day_of_instant t)).1

/-! ### ISO-8601 parsing (`datetime.fromisoformat`)

Modelled for the common profile `YYYY-MM-DD[(T|t| )HH:MM[:SS[.ffffff]]]
[±HH:MM]` accepted by `datetime.fromisoformat`; an offset shifts the result
to UTC and a naive result is treated as UTC, matching the caller at
instagram_scraper.py lines 592-596. -/

/-- Exactly `n` leading digits. -/
def takeDigitsN : Nat → List Char → Option (Nat × List Char)
  | 0, s => some (0, s)
  | _ + 1, [] => none
  | n + 1, c :: cs =>
    if c.isDigit then
      match takeDigitsN n cs with
      | some (v, rest) => some ((c.toNat - 48) * 10 ^ n + v, rest)
      | none => none
    else none

/-- `HH:MM` two-field parse. -/
def parse_two_fields (s : List Char) : Option (Nat × Nat × List Char) :=
  match takeDigitsN 2 s with
  | some (a, ':' :: r1) =>
    match takeDigitsN 2 r1 with
    | some (b, r2) => some (a, b, r2)
    | none => none
  | _ => none

/-- At most six fractional-second digits. -/
def parse_fraction (s : List Char) : Option (ℚ × List Char) :=
  let p := s.span Char.isDigit
  if p.1 = [] ∨ 6 < p.1.length then none
  else some ((digitsToNat p.1 : ℚ) / (10 ^ p.1.length), p.2)

/-- Optional UTC offset `±HH:MM`, in seconds. -/
def parse_offset (s : List Char) : Option (Int × List Char) :=
  match s with
  | '+' :: r =>
    match parse_two_fields r with
    | some (h, mi, rest) => some ((h : Int) * 3600 + (mi : Int) * 60, rest)
    | none => none
  | '-' :: r =>
    match parse_two_fields r with
    | some (h, mi, rest) => some (-((h : Int) * 3600 + (mi : Int) * 60), rest)
    | none => none
  | _ => none

/-- Time-of-day plus optional offset; returns seconds into the day and the
offset. -/
def parse_time_part (s : List Char) : Option (ℚ × Int) :=
  match parse_two_fields s with
  | some (hh, mi, r2) =>
    if 23 < hh ∨ 59 < mi then none
    else
      let base : ℚ := (hh : ℚ) * 3600 + (mi : ℚ) * 60
      let withSec : Option (ℚ × List Char) :=
        match r2 with
        | ':' :: r3 =>
          match takeDigitsN 2 r3 with
          | some (ss, r4) =>
            if 59 < ss then none
            else
              match r4 with
              | '.' :: r5 =>
                match parse_fraction r5 with
                | some (fr, r6) => some (base + (ss : ℚ) + fr, r6)
                | none => none
              | _ => some (base + (ss : ℚ), r4)
          | none => none
        | _ => some (base, r2)
      match withSec with
      | some (secs, rest) =>
        match rest with
        | [] => some (secs, 0)
        | _ =>
          match parse_offset rest with
          | some (off, []) => some (secs, off)
          | _ => none
      | none => none
  | none => none

/-- `datetime.fromisoformat` on the lowercased candidate, as epoch seconds in
UTC. -/
def parse_iso (s : List Char) : Option ℚ :=
  match takeDigitsN 4 s with
  | some (y, '-' :: r1) =>
    match takeDigitsN 2 r1 with
    | some (mo, '-' :: r2) =>
      match takeDigitsN 2 r2 with
      | some (d, r3) =>
        match mk_date (y : Int) (mo : Int) (d : Int) with
        | some day =>
          match r3 with
          | [] => some ((day : ℚ) * 86400)
          | sep :: r4 =>
            if sep = 't' ∨ sep = 'T' ∨ sep = ' ' then
              match parse_time_part r4 with
              | some (secs, off) =>
                some ((day : ℚ) * 86400 + secs - (off : ℚ))
              | none => none
            else none
        | none => none
      | none => none
    | _ => none
  | _ => none

/-- The `text.replace("z", "+00:00")` of line 592. -/
def replace_z (s : List Char) : List Char :=
  s.flatMap (fun c => if c = 'z' then "+00:00".data else [c])

/-! ### Absolute calendar text (`_parse_absolute_date`, lines 445-569) -/

/-- NFD accent stripping for the Latin-1 letters (`unicodedata.normalize("NFD")`
followed by dropping combining marks); the sources only meet lowercased
Latin-1 text here. -/
def deaccent (c : Char) : Char :=
  if c = 'á' ∨ c = 'à' ∨ c = 'â' ∨ c = 'ã' ∨ c = 'ä' then 'a'
  else if c = 'é' ∨ c = 'è' ∨ c = 'ê' ∨ c = 'ë' then 'e'
  else if c = 'í' ∨ c = 'ì' ∨ c = 'î' ∨ c = 'ï' then 'i'
  else if c = 'ó' ∨ c = 'ò' ∨ c = 'ô' ∨ c = 'õ' ∨ c = 'ö' then 'o'
  else if c = 'ú' ∨ c = 'ù' ∨ c = 'û' ∨ c = 'ü' then 'u'
  else if c = 'ç' then 'c'
  else if c = 'ñ' then 'n'
  else c

/-- `.replace(",", " ").replace(".", " ")` of line 459. -/
def punctToSpace (c : Char) : Char :=
  if c = ',' ∨ c = '.' then ' ' else c

/-- Split into whitespace-separated words (`str.split()` after the `\s+`
collapse of line 461). -/
def wordsGo : List Char → List Char → List (List Char)
  | [], acc => if acc = [] then [] else [acc.reverse]
  | c :: cs, acc =>
    if pySpace c then
      if acc = [] then wordsGo cs [] else acc.reverse :: wordsGo cs []
    else wordsGo cs (c :: acc)

def wordsOf (s : List Char) : List (List Char) := wordsGo s []

def de_alts : List (List Char) := ["de"].map String.data

/-- The month-name table of `_parse_absolute_date` (lines 463-504); note that
"ago" (Portuguese abbreviation of agosto) maps to August. -/
def month_map : List (List Char × Int) :=
  [("january", 1), ("jan", 1), ("february", 2), ("feb", 2), ("fevereiro", 2),
   ("fev", 2), ("march", 3), ("mar", 3), ("marco", 3), ("abril", 4),
   ("apr", 4), ("april", 4), ("maio", 5), ("may", 5), ("jun", 6),
   ("june", 6), ("junho", 6), ("jul", 7), ("july", 7), ("julho", 7),
   ("aug", 8), ("august", 8), ("ago", 8), ("agosto", 8), ("sep", 9),
   ("sept", 9), ("september", 9), ("set", 9), ("setembro", 9), ("oct", 10),
   ("october", 10), ("out", 10), ("outubro", 10), ("nov", 11),
   ("november", 11), ("novembro", 11), ("dec", 12), ("december", 12),
   ("dez", 12), ("dezembro", 12)].map (fun p => (p.1.data, p.2))

def month_of_token (tok : List Char) : Option Int :=
  (month_map.find? (fun p => p.1 = tok)).map (·.2)

/-- `_parse_day`: `re.match(r"(\d{1,2})", token)` - one or two leading digits,
valid when between 1 and 31 (lines 510-517). -/
def parse_day_token (tok : List Char) : Option Int :=
  let ds := (tok.takeWhile Char.isDigit).take 2
  if ds = [] then none
  else
    let d : Int := (digitsToNat ds : Int)
    if 1 ≤ d ∧ d ≤ 31 then some d else none

/-- `_parse_year`: `re.match(r"(\d{2,4})", token)` - two to four leading
digits, two-digit years get 2000 added (lines 519-528). -/
def parse_year_token (tok : Option (List Char)) : Option Int :=
  match tok with
  | none => none
  | some t =>
    let ds := (t.takeWhile Char.isDigit).take 4
    if ds.length < 2 then none
    else
      let y : Int := (digitsToNat ds : Int)
      if y < 100 then some (y + 2000) else some y

/-- The token loop of `_parse_absolute_date` (lines 530-569): find a month
token, read the day from the following (else preceding) token and an optional
year, resolve a missing year against `now` rolling back one year for future
dates, and return the date as epoch seconds; `none` models both "no parse"
and the `ValueError` returns. -/
def abs_date_go (now : ℚ) (toks : List (List Char)) : Nat → Nat → Option ℚ
  | _, 0 => none
  | idx, fuel + 1 =>
    match toks.get? idx with
    | none => none
    | some tok =>
      match month_of_token tok with
      | none => abs_date_go now toks (idx + 1) fuel
      | some month =>
        let dayAfter := match toks.get? (idx + 1) with
          | some t1 => parse_day_token t1
          | none => none
        let p : Option Int × Option Int :=
          match dayAfter with
          | some d => (some d, parse_year_token (toks.get? (idx + 2)))
          | none =>
            if 0 < idx then
              match toks.get? (idx - 1) with
              | some t0 =>
                match parse_day_token t0 with
                | some d => (some d, parse_year_token (toks.get? (idx + 1)))
                | none => (none, none)
              | none => (none, none)
            else (none, none)
        match p.1 with
        | none => abs_date_go now toks (idx + 1) fuel
        | some day =>
          match p.2 with
          | none =>
            let year := year_of_instant now
            match mk_date year month day with
            | none => none
            | some dday =>
              if day_of_instant now < dday then
                match mk_date (year - 1) month day with
                | none => none
                | some dday' => some ((dday' : ℚ) * 86400)
              else some ((dday : ℚ) * 86400)
          | some year =>
            match mk_date year month day with
            | none => none
            | some dday => some ((dday : ℚ) * 86400)

/-- `_parse_absolute_date(text, now)` (instagram_scraper.py lines 445-569). -/
def parse_absolute_date (now : ℚ) (text : List Char) : Option ℚ :=
  let cleaned := strLower (pyStrip text)
  if cleaned = [] then none
  else
    let normalized := (cleaned.map deaccent).map punctToSpace
    let toks := wordsOf (removeWordTokens de_alts normalized)
    if toks = [] then none
    else abs_date_go now toks 0 toks.length

/-! ### `_is_recent_post` (lines 571-613) and the spec-side resolved age -/

/-- The `posted_at` value handed to `_is_recent_post`: absent, an aware
datetime (epoch seconds UTC), or text. -/
inductive PostedAt where
  | null : PostedAt
  | dt (epoch : ℚ) : PostedAt
  | str (s : String) : PostedAt

/-- `max(1, int(recent_days)) * 24` (line 579). -/
def limit_hours (recent_days : Int) : Int := max 1 recent_days * 24

/-- `_is_recent_post(posted_at, recent_days)` at instant `now`
(instagram_scraper.py lines 571-613). -/
def is_recent_post (now : ℚ) (posted_at : PostedAt) (recent_days : Int) : Bool :=
  let limit := limit_hours recent_days
  match posted_at with
  | .null => false
  | .dt t => now - t ≤ (limit : ℚ) * 3600
  | .str s =>
    let text := pyStrip (strLower s.data)
    if text = [] then false
    else if text = "now".data ∨ text = "just now".data ∨
        text = "agora".data ∨ text = "agora mesmo".data then true
    else
      match parse_iso (replace_z text) with
      | some t => now - t ≤ (limit : ℚ) * 3600
      | none =>
        match parse_absolute_date now text with
        | some t => now - t ≤ (limit : ℚ) * 3600
        | none =>
          if text = "today".data ∨ text = "hoje".data then true
          else if text = "yesterday".data ∨ text = "ontem".data then
            48 ≤ limit
          else
            match relative_time_to_hours (some (String.mk text)) with
            | some h => h ≤ (limit : ℚ)
            | none => false

/-- The resolved age, in hours, of a `posted_at` value per the spec's three
strategies in order: ISO-8601 absolute parse, absolute calendar text, then
relative-duration text (which itself resolves "now"/"today"/"yesterday"). -/
def resolved_age_hours (now : ℚ) (posted_at : PostedAt) : Option ℚ :=
  match posted_at with
  | .null => none
  | .dt t => some ((now - t) / 3600)
  | .str s =>
    let text := pyStrip (strLower s.data)
    if text = [] then none
    else
      match parse_iso (replace_z text) with
      | some t => some ((now - t) / 3600)
      | none =>
        match parse_absolute_date now text with
        | some t => some ((now - t) / 3600)
        | none => relative_time_to_hours (some (String.mk text))

unseal Rat.mul Rat.inv Rat.add Rat.sub in
example : relative_time_to_hours (some "44 minutes ago") = some (44 / 60) := by
  decide

unseal Rat.mul Rat.inv Rat.add Rat.sub in
example : relative_time_to_hours (some "1 minute ago") = some (1 / 60) := by
  decide

unseal Rat.mul Rat.inv Rat.add Rat.sub in
example : relative_time_to_hours (some "2 dias") = some 48 := by decide

unseal Rat.mul Rat.inv Rat.add Rat.sub in
example : relative_time_to_hours (some "agora") = some 0 := by decide

unseal Rat.mul Rat.inv Rat.add Rat.sub in
example : relative_time_to_hours (some "5 mês") = some (5 * 720) := by decide

unseal Rat.mul Rat.inv Rat.add Rat.sub in
example : is_recent_post 0 (.str "44 minutes ago") 3 = true := by decide

unseal Rat.mul Rat.inv Rat.add Rat.sub in
example : is_recent_post 0 (.str "4 days ago") 3 = false := by decide

unseal Rat.mul Rat.inv Rat.add Rat.sub in
example : is_recent_post 0 (.str "yesterday") 1 = false := by decide

unseal Rat.mul Rat.inv Rat.add Rat.sub in
example : resolved_age_hours 0 (.str "yesterday") = some 24 := by decide

unseal Rat.mul Rat.inv Rat.add Rat.sub in
example : parse_iso "2024-03-05t10:00:00+02:00".data =
    some ((19787 : ℚ) * 86400 + 8 * 3600) := by decide

/-! ### Characterisation of the recency classifier -/

/-- Whether a `posted_at` value is the bare "yesterday"/"ontem" text (after
strip and lowercase). -/
def yesterday_text (p : PostedAt) : Bool :=
  match p with
  | .str s =>
    pyStrip (strLower s.data) = "yesterday".data ∨
      pyStrip (strLower s.data) = "ontem".data
  | _ => false

theorem limit_hours_ge (w : Int) : 24 ≤ limit_hours w := by
  simp only [limit_hours]
  have h1 : 1 ≤ max 1 w := le_max_left 1 w
  omega

theorem limit_hours_mono {w w' : Int} (h : w ≤ w') :
    limit_hours w ≤ limit_hours w' := by
  simp only [limit_hours]
  have h1 : max 1 w ≤ max 1 w' := by omega
  omega

/-- `_is_recent_post` is the window test on the resolved age for every input
except the bare "yesterday"/"ontem" text, which instead requires the clamped
window to cover 48 hours. -/
theorem is_recent_post_iff (now : ℚ) (p : PostedAt) (w : Int) :
    is_recent_post now p w = true ↔
      (yesterday_text p = true ∧ 48 ≤ limit_hours w) ∨
      (yesterday_text p = false ∧
        ∃ h, resolved_age_hours now p = some h ∧
          h ≤ ((limit_hours w : Int) : ℚ)) := by
  have hL24 : 24 ≤ limit_hours w := limit_hours_ge w
  have hL0 : (0 : ℚ) ≤ ((limit_hours w : Int) : ℚ) := by
    have : (0 : Int) ≤ limit_hours w := by omega
    exact_mod_cast this
  have h3600 : (0 : ℚ) < 3600 := by norm_num
  cases p with
  | null =>
    simp [is_recent_post, resolved_age_hours, yesterday_text]
  | dt t =>
    simp only [is_recent_post, resolved_age_hours, yesterday_text,
      decide_eq_true_eq, Bool.false_eq_true, false_and, false_or, true_and,
      Option.some.injEq]
    constructor
    · intro h
      exact ⟨(now - t) / 3600, rfl, by rw [div_le_iff₀ h3600]; linarith⟩
    · rintro ⟨h, rfl, hle⟩
      rw [div_le_iff₀ h3600] at hle
      linarith
  | str s =>
    simp only [is_recent_post, resolved_age_hours, yesterday_text]
    by_cases hempty : pyStrip (strLower s.data) = []
    · rw [if_pos hempty, if_pos hempty, hempty]
      simp
    · rw [if_neg hempty, if_neg hempty]
      by_cases hnow : pyStrip (strLower s.data) = "now".data ∨
          pyStrip (strLower s.data) = "just now".data ∨
          pyStrip (strLower s.data) = "agora".data ∨
          pyStrip (strLower s.data) = "agora mesmo".data
      · rw [if_pos hnow]
        rcases hnow with h2 | h2 | h2 | h2 <;> rw [h2] <;>
          exact ⟨fun _ => Or.inr ⟨by decide, 0, rfl, hL0⟩, fun _ => rfl⟩
      · rw [if_neg hnow]
        cases hiso : parse_iso (replace_z (pyStrip (strLower s.data))) with
        | some t =>
          have hyf : ¬(pyStrip (strLower s.data) = "yesterday".data ∨
              pyStrip (strLower s.data) = "ontem".data) := by
            rintro (h | h) <;> rw [h] at hiso
            · rw [(by decide : parse_iso (replace_z ("yesterday".data)) = none)]
                at hiso
              exact Option.noConfusion hiso
            · rw [(by decide : parse_iso (replace_z ("ontem".data)) = none)]
                at hiso
              exact Option.noConfusion hiso
          simp only [hiso, decide_eq_true_eq, Option.some.injEq]
          constructor
          · intro h
            refine Or.inr ⟨by simp [hyf], (now - t) / 3600, rfl, ?_⟩
            rw [div_le_iff₀ h3600]
            linarith
          · rintro (⟨hy, _⟩ | ⟨_, hv, rfl, hle⟩)
            · exact absurd hy hyf
            · rw [div_le_iff₀ h3600] at hle
              linarith
        | none =>
          cases habs : parse_absolute_date now (pyStrip (strLower s.data)) with
          | some t =>
            have hyf : ¬(pyStrip (strLower s.data) = "yesterday".data ∨
                pyStrip (strLower s.data) = "ontem".data) := by
              rintro (h | h) <;> rw [h] at habs
              · rw [(rfl : parse_absolute_date now ("yesterday".data) = none)]
                  at habs
                exact Option.noConfusion habs
              · rw [(rfl : parse_absolute_date now ("ontem".data) = none)]
                  at habs
                exact Option.noConfusion habs
            simp only [hiso, habs, decide_eq_true_eq, Option.some.injEq]
            constructor
            · intro h
              refine Or.inr ⟨by simp [hyf], (now - t) / 3600, rfl, ?_⟩
              rw [div_le_iff₀ h3600]
              linarith
            · rintro (⟨hy, _⟩ | ⟨_, hv, rfl, hle⟩)
              · exact absurd hy hyf
              · rw [div_le_iff₀ h3600] at hle
                linarith
          | none =>
            simp only [hiso, habs]
            by_cases htoday : pyStrip (strLower s.data) = "today".data ∨
                pyStrip (strLower s.data) = "hoje".data
            · rw [if_pos htoday]
              rcases htoday with h2 | h2 <;> rw [h2] <;>
                exact ⟨fun _ => Or.inr ⟨by decide, 0, by decide, hL0⟩,
                  fun _ => rfl⟩
            · rw [if_neg htoday]
              by_cases hyest : pyStrip (strLower s.data) = "yesterday".data ∨
                  pyStrip (strLower s.data) = "ontem".data
              · rw [if_pos hyest]
                rcases hyest with h2 | h2 <;> rw [h2] <;>
                  exact ⟨fun h => Or.inl ⟨by decide, of_decide_eq_true h⟩,
                    fun hc => hc.elim (fun hp => decide_eq_true hp.2)
                      (fun hp => absurd hp.1 (by decide))⟩
              · rw [if_neg hyest]
                cases hrel : relative_time_to_hours
                    (some (String.mk (pyStrip (strLower s.data)))) with
                | some hv =>
                  simp only [hrel, decide_eq_true_eq, Option.some.injEq]
                  constructor
                  · intro h
                    refine Or.inr ⟨by simp [hyest], hv, rfl, h⟩
                  · rintro (⟨hy, _⟩ | ⟨_, h2, rfl, hle⟩)
                    · exact absurd hy hyest
                    · exact hle
                | none =>
                  simp [hrel, hyest]

/-- C6: the recency classifier is monotonic in the window size: recent at
window `w` implies recent at any window `w' > w`. -/
theorem C6_recency_monotone_in_window (now : ℚ) (p : PostedAt) (w w' : Int)
    (hww : w < w') (h : is_recent_post now p w = true) :
    is_recent_post now p w' = true := by
  rw [is_recent_post_iff] at h ⊢
  have hl : limit_hours w ≤ limit_hours w' := limit_hours_mono (le_of_lt hww)
  rcases h with ⟨hy, h48⟩ | ⟨hy, hv, heq, hle⟩
  · exact Or.inl ⟨hy, by omega⟩
  · refine Or.inr ⟨hy, hv, heq, le_trans hle ?_⟩
    exact_mod_cast hl

unseal Rat.mul Rat.inv Rat.add Rat.sub in
/-- C6 witness: "44 minutes ago" is recent at a 1-day window, hence by
monotonicity also at the 3-day window. -/
theorem C6_recency_monotone_witness :
    is_recent_post 0 (.str "44 minutes ago") 3 = true :=
  C6_recency_monotone_in_window 0 (.str "44 minutes ago") 1 3 (by decide)
    (by decide)

unseal Rat.mul Rat.inv Rat.add Rat.sub in
/-- C4 counterexample: the date string "yesterday" resolves (via the
relative-duration strategy) to an age of 24 hours, which is within
`windowDays * 24 = 24` hours for `windowDays = 1`, yet `_is_recent_post`
classifies it not recent - refuting the claimed equivalence "recent iff
resolved age ≤ windowDays * 24 hours". -/
theorem C4_yesterday_counterexample :
    is_recent_post 0 (.str "yesterday") 1 = false ∧
    resolved_age_hours 0 (.str "yesterday") = some 24 ∧
    (24 : ℚ) ≤ (1 : ℚ) * 24 := by
  refine ⟨by decide, by decide, by norm_num⟩

unseal Rat.mul Rat.inv Rat.add Rat.sub in
/-- C4 (amended): a post is classified recent iff its resolved age is at most
`max(1, windowDays) * 24` hours, except that the bare "yesterday"/"ontem"
strings are classified recent iff `max(1, windowDays) * 24 ≥ 48`; a date
string none of the strategies can interpret (resolved age `none`) is not
recent; in particular "4 days ago" with windowDays = 3 is not recent and
"44 minutes ago" with windowDays = 3 is recent. -/
theorem C4_recency_window_amended :
    (∀ (now : ℚ) (p : PostedAt) (w : Int),
      is_recent_post now p w = true ↔
        (yesterday_text p = true ∧ 48 ≤ limit_hours w) ∨
        (yesterday_text p = false ∧
          ∃ h, resolved_age_hours now p = some h ∧
            h ≤ ((limit_hours w : Int) : ℚ))) ∧
    (∀ now : ℚ, is_recent_post now (.str "4 days ago") 3 = false) ∧
    (∀ now : ℚ, is_recent_post now (.str "44 minutes ago") 3 = true) := by
  refine ⟨is_recent_post_iff, fun now => rfl, fun now => rfl⟩

/-! ### Supporting lemmas for the relative-time unit table (C5) -/

theorem dropWhile_cons_false {p : Char → Bool} {c : Char} (cs : List Char)
    (h : p c = false) : (c :: cs).dropWhile p = c :: cs := by
  simp [List.dropWhile_cons, h]

theorem pySpace_of_digit {c : Char} (h : c.isDigit) : pySpace c = false := by
  simp only [pySpace, decide_eq_false_iff_not]
  rintro (rfl | rfl | rfl | rfl | rfl | rfl) <;> exact absurd h (by decide)

theorem isWordChar_of_digit {c : Char} (h : c.isDigit) : isWordChar c = true := by
  simp [isWordChar, Char.isAlphanum, h]

theorem bulletToSpace_of_digit {c : Char} (h : c.isDigit) :
    bulletToSpace c = c := by
  simp only [bulletToSpace]
  rw [if_neg]
  rintro (rfl | rfl) <;> exact absurd h (by decide)

theorem digit_head_ne {d : Char} (hd : d.isDigit) {c0 : Char}
    (hc : c0.isDigit = false) (t1 t2 : List Char) :
    (d :: t1 : List Char) ≠ c0 :: t2 := by
  intro h
  injection h with h1 _
  subst h1
  rw [hd] at hc
  exact Bool.noConfusion hc

/-- All alternatives start with a non-digit character. -/
def heads_not_digit (alts : List (List Char)) : Bool :=
  alts.all (fun t => match t with | [] => false | c :: _ => !c.isDigit)

theorem findTok_digit_none {alts : List (List Char)} {d : Char}
    (halts : heads_not_digit alts = true) (hd : d.isDigit) (rest : List Char) :
    findTok alts (d :: rest) = none := by
  induction alts with
  | nil => rfl
  | cons t ts ih =>
    simp only [heads_not_digit, List.all_cons, Bool.and_eq_true] at halts
    obtain ⟨ht, hts⟩ := halts
    simp only [findTok]
    rw [if_neg]
    · exact ih (by simp [heads_not_digit, hts])
    · rintro ⟨hpre, _⟩
      cases t with
      | nil => exact Bool.noConfusion ht
      | cons c t' =>
        simp only [Bool.not_eq_true'] at ht
        simp only [List.isPrefixOf, Bool.and_eq_true, beq_iff_eq] at hpre
        obtain ⟨rfl, _⟩ := hpre
        rw [hd] at ht
        exact Bool.noConfusion ht

theorem removeGo_digit_cons {alts : List (List Char)} {d : Char}
    (halts : heads_not_digit alts = true) (hd : d.isDigit)
    (rest : List Char) (b : Bool) :
    removeGo alts (d :: rest) 0 b = d :: removeGo alts rest 0 true := by
  cases b with
  | true => simp [removeGo, isWordChar_of_digit hd]
  | false =>
    simp [removeGo, findTok_digit_none halts hd, isWordChar_of_digit hd]

theorem removeGo_digits_run {alts : List (List Char)}
    (halts : heads_not_digit alts = true) :
    ∀ ds : List Char, (∀ c ∈ ds, c.isDigit) → ds ≠ [] →
      ∀ (rest : List Char) (b : Bool),
        removeGo alts (ds ++ rest) 0 b = ds ++ removeGo alts rest 0 true := by
  intro ds
  induction ds with
  | nil => intro _ h; exact absurd rfl h
  | cons d ds' ih =>
    intro hds _ rest b
    have hd : d.isDigit := hds d (by simp)
    rw [List.cons_append, removeGo_digit_cons halts hd]
    cases ds' with
    | nil => simp
    | cons e es =>
      rw [ih (fun c hc => hds c (List.mem_cons_of_mem d hc)) (by simp) rest true]
      simp

theorem map_digits_append (f : Char → Char) (hf : ∀ c, c.isDigit → f c = c)
    (ds rest : List Char) (hds : ∀ c ∈ ds, c.isDigit) :
    (ds ++ rest).map f = ds ++ rest.map f := by
  rw [List.map_append]
  congr 1
  calc ds.map f = ds.map id := List.map_congr_left (fun c hc => hf c (hds c hc))
  _ = ds := List.map_id ds

theorem takeWhile_digits_append (ds rest : List Char)
    (hds : ∀ c ∈ ds, c.isDigit)
    (hrest : ∀ c t, rest = c :: t → c.isDigit = false) :
    (ds ++ rest).takeWhile Char.isDigit = ds := by
  induction ds with
  | nil =>
    cases rest with
    | nil => rfl
    | cons c t => simp [List.takeWhile_cons, hrest c t rfl]
  | cons d ds' ih =>
    have hd : d.isDigit := hds d (by simp)
    rw [List.cons_append, List.takeWhile_cons, if_pos hd,
      ih (fun c hc => hds c (List.mem_cons_of_mem d hc))]

theorem dropWhile_digits_append (ds rest : List Char)
    (hds : ∀ c ∈ ds, c.isDigit)
    (hrest : ∀ c t, rest = c :: t → c.isDigit = false) :
    (ds ++ rest).dropWhile Char.isDigit = rest := by
  induction ds with
  | nil =>
    cases rest with
    | nil => rfl
    | cons c t => simp [List.dropWhile_cons, hrest c t rfl]
  | cons d ds' ih =>
    have hd : d.isDigit := hds d (by simp)
    rw [List.cons_append, List.dropWhile_cons, if_pos hd]
    exact ih (fun c hc => hds c (List.mem_cons_of_mem d hc))

theorem span_digits_append (ds rest : List Char)
    (hds : ∀ c ∈ ds, c.isDigit)
    (hrest : ∀ c t, rest = c :: t → c.isDigit = false) :
    (ds ++ rest).span Char.isDigit = (ds, rest) := by
  rw [List.span_eq_take_drop, takeWhile_digits_append ds rest hds hrest,
    dropWhile_digits_append ds rest hds hrest]

theorem numberValue_int (ds : List Char) :
    numberValue ds [] = (digitsToNat ds : ℚ) := by
  simp [numberValue, digitsToNat]

theorem matchNumberUnit_shape (alts : List (List Char)) (ds u : List Char)
    (hne : ds ≠ []) (hds : ∀ c ∈ ds, c.isDigit)
    (hu : ∀ c t, u = c :: t → pySpace c = false) :
    matchNumberUnit alts (ds ++ ' ' :: u) =
      if altBoundary alts u then some (digitsToNat ds : ℚ) else none := by
  have hspan : (ds ++ ' ' :: u).span Char.isDigit = (ds, ' ' :: u) :=
    span_digits_append ds (' ' :: u) hds (by rintro c t hct; injection hct with h1 _; subst h1; decide)
  have hdrop : (' ' :: u).dropWhile pySpace = u := by
    rw [List.dropWhile_cons, if_pos (by decide : pySpace ' ' = true)]
    cases u with
    | nil => rfl
    | cons c t => exact dropWhile_cons_false t (hu c t rfl)
  unfold matchNumberUnit
  rw [hspan]
  cases ds with
  | nil => exact absurd rfl hne
  | cons d ds' =>
    simp only [hdrop, numberValue_int]
    rw [if_neg (by decide : ¬(' ' = '.' ∨ ' ' = ','))]

theorem searchNumberUnit_no_digit (alts : List (List Char)) :
    ∀ s : List Char, (∀ c ∈ s, c.isDigit = false) →
      searchNumberUnit alts s = none := by
  intro s
  induction s with
  | nil => intro _; rfl
  | cons c cs ih =>
    intro hs
    have hmatch : matchNumberUnit alts (c :: cs) = none := by
      have hspan : (c :: cs).span Char.isDigit = ([], c :: cs) :=
        span_digits_append [] (c :: cs) (by simp)
          (by rintro e t het; injection het with h1 _; rw [← h1]; exact hs c (by simp))
      unfold matchNumberUnit
      rw [hspan]
    simp only [searchNumberUnit, hmatch]
    exact ih (fun e he => hs e (List.mem_cons_of_mem c he))

theorem searchNumberUnit_shape (alts : List (List Char)) :
    ∀ (ds : List Char), ds ≠ [] → (∀ c ∈ ds, c.isDigit) →
    ∀ (u : List Char), (∀ c t, u = c :: t → pySpace c = false) →
      (∀ c ∈ u, c.isDigit = false) →
      searchNumberUnit alts (ds ++ ' ' :: u) =
        if altBoundary alts u then some (digitsToNat ds : ℚ) else none := by
  intro ds
  induction ds with
  | nil => intro h; exact absurd rfl h
  | cons d ds' ih =>
    intro _ hds u hu hund
    rw [List.cons_append]
    have hmatch := matchNumberUnit_shape alts (d :: ds') u (by simp) hds hu
    rw [List.cons_append] at hmatch
    by_cases hb : altBoundary alts u = true
    · rw [if_pos hb] at hmatch
      rw [if_pos hb]
      simp only [searchNumberUnit, hmatch]
    · rw [if_neg hb] at hmatch
      rw [if_neg hb]
      simp only [searchNumberUnit, hmatch]
      cases ds' with
      | nil =>
        have hm2 : matchNumberUnit alts (' ' :: u) = none := by
          have hspan : (' ' :: u).span Char.isDigit = ([], ' ' :: u) :=
            span_digits_append [] (' ' :: u) (by simp)
              (by rintro e t het; injection het with h1 _; subst h1; decide)
          unfold matchNumberUnit
          rw [hspan]
        simp only [List.nil_append, searchNumberUnit, hm2]
        exact searchNumberUnit_no_digit alts u hund
      | cons e es =>
        have := ih (by simp) (fun c hc => hds c (List.mem_cons_of_mem d hc)) u hu hund
        rw [if_neg hb] at this
        exact this

theorem patterns_loop_shape (ds u : List Char) (hne : ds ≠ [])
    (hds : ∀ c ∈ ds, c.isDigit)
    (hu : ∀ c t, u = c :: t → pySpace c = false)
    (hund : ∀ c ∈ u, c.isDigit = false) :
    ∀ ps : List (List (List Char) × ℚ),
      patterns_loop ps (ds ++ ' ' :: u) =
        (ps.find? (fun p => altBoundary p.1 u)).map
          (fun p => (digitsToNat ds : ℚ) * p.2) := by
  intro ps
  induction ps with
  | nil => rfl
  | cons p ps' ih =>
    obtain ⟨alts, m⟩ := p
    simp only [patterns_loop]
    rw [searchNumberUnit_shape alts ds hne hds u hu hund]
    by_cases hb : altBoundary alts u = true
    · rw [if_pos hb, List.find?_cons_of_pos _ (by simpa using hb)]
      simp
    · rw [if_neg hb, List.find?_cons_of_neg _ (by simpa using hb)]
      exact ih

theorem pyStrip_eq_self {s : List Char}
    (h1 : ∀ c t, s = c :: t → pySpace c = false)
    (h2 : ∀ c t, s.reverse = c :: t → pySpace c = false) :
    pyStrip s = s := by
  unfold pyStrip
  have hf : s.dropWhile pySpace = s := by
    cases hs : s with
    | nil => rfl
    | cons c t => exact dropWhile_cons_false t (h1 c t hs)
  rw [hf]
  have hr : s.reverse.dropWhile pySpace = s.reverse := by
    cases hs : s.reverse with
    | nil => rfl
    | cons c t => exact dropWhile_cons_false t (h2 c t hs)
  rw [hr, List.reverse_reverse]

theorem pyStrip_trailing_space {s : List Char} (hne : s ≠ [])
    (h1 : ∀ c t, s = c :: t → pySpace c = false)
    (h2 : ∀ c t, s.reverse = c :: t → pySpace c = false) :
    pyStrip (s ++ [' ']) = s := by
  unfold pyStrip
  have hf : (s ++ [' ']).dropWhile pySpace = s ++ [' '] := by
    cases hs : s with
    | nil => exact absurd hs hne
    | cons c t =>
      exact dropWhile_cons_false (t ++ [' ']) (h1 c t hs)
  rw [hf]
  have hrev : (s ++ [' ']).reverse = ' ' :: s.reverse := by
    simp
  rw [hrev, List.dropWhile_cons, if_pos (by decide : pySpace ' ' = true)]
  have hr : s.reverse.dropWhile pySpace = s.reverse := by
    cases hs : s.reverse with
    | nil => rfl
    | cons c t => exact dropWhile_cons_false t (h2 c t hs)
  rw [hr, List.reverse_reverse]

/-- The cleaning suffix " <unit> ago" appended to the digit run. -/
def unit_suffix (u : List Char) : List Char := ' ' :: (u ++ (' ' :: "ago".data))

/-- Per-unit checks: the token is nonempty, digit-free, space-free at both
ends, fixed by lowercasing, bullet replacement and the three word-removal
passes (which only strip the trailing " ago"). -/
def unit_clean_ok (u : List Char) : Bool :=
  (u ≠ []) &&
  u.all (fun c => !c.isDigit) &&
  (match u with | [] => false | c :: _ => !pySpace c) &&
  (match u.reverse with | [] => false | c :: _ => !pySpace c) &&
  (strLower u == u) &&
  (u.map bulletToSpace == u) &&
  (removeGo edit_alts (unit_suffix u) 0 true == unit_suffix u) &&
  (removeGo ago_alts (unit_suffix u) 0 true == ' ' :: (u ++ [' '])) &&
  (removeGo ha_alts (' ' :: (u ++ [' '])) 0 true == ' ' :: (u ++ [' ']))

unseal Rat.mul Rat.inv Rat.add Rat.sub in
theorem units_clean_ok_all :
    unit_patterns.all (fun p => p.1.all unit_clean_ok) = true := by decide

/-- The hour multiplier selected by the pattern loop for a token. -/
def first_unit_mult (u : List Char) : Option ℚ :=
  (unit_patterns.find? (fun p => altBoundary p.1 u)).map (·.2)

unseal Rat.mul Rat.inv Rat.add Rat.sub in
theorem units_mult_all :
    unit_patterns.all
      (fun p => p.1.all (fun u => first_unit_mult u == some p.2)) = true := by
  decide

/-- C5: for every relative-date string "(digits) (unit) ago" formed from the
unit table (singular and plural, English and Portuguese tokens),
`_relative_time_to_hours` returns exactly the numeric value times the unit's
hour multiplier - e.g. 44/60 for "44 minutes ago" and 1/60 for
"1 minute ago". -/
theorem C5_relative_time_unit_table
    (ds : List Char) (hne : ds ≠ []) (hds : ∀ c ∈ ds, c.isDigit)
    (alts : List (List Char)) (mult : ℚ)
    (hmem : (alts, mult) ∈ unit_patterns) (u : List Char) (hu : u ∈ alts) :
    relative_time_to_hours (some (String.mk (ds ++ unit_suffix u))) =
      some ((digitsToNat ds : ℚ) * mult) := by
  have hok : unit_clean_ok u = true :=
    List.all_eq_true.mp
      (List.all_eq_true.mp units_clean_ok_all (alts, mult) hmem) u hu
  simp only [unit_clean_ok, Bool.and_eq_true, decide_eq_true_eq,
    beq_iff_eq] at hok
  obtain ⟨⟨⟨⟨⟨⟨⟨⟨hune, hund⟩, huh⟩, hur⟩, hlow⟩, hbul⟩, hedit⟩, hago⟩, hha⟩ := hok
  have hund' : ∀ c ∈ u, c.isDigit = false := by
    intro c hc
    have h := List.all_eq_true.mp hund c hc
    simpa using h
  have huh' : ∀ c t, u = c :: t → pySpace c = false := by
    intro c t hct
    have h := huh
    rw [hct] at h
    simpa using h
  have hur' : ∀ c t, u.reverse = c :: t → pySpace c = false := by
    intro c t hct
    have h := hur
    rw [hct] at h
    simpa using h
  obtain ⟨d, ds0, rfl⟩ : ∃ d ds0, ds = d :: ds0 := by
    cases ds with
    | nil => exact absurd rfl hne
    | cons d t => exact ⟨d, t, rfl⟩
  have hd : d.isDigit := hds d (by simp)
  have hago_data : "ago".data = ['a', 'g', 'o'] := rfl
  have hassoc : (d :: ds0) ++ unit_suffix u =
      ((d :: ds0) ++ (' ' :: u) ++ [' ', 'a', 'g']) ++ ['o'] := by
    simp [unit_suffix, hago_data]
  have hstrip0 : pyStrip ((d :: ds0) ++ unit_suffix u) =
      (d :: ds0) ++ unit_suffix u := by
    apply pyStrip_eq_self
    · rintro c t hct
      rw [List.cons_append] at hct
      injection hct with h1 _
      rw [← h1]
      exact pySpace_of_digit hd
    · rintro c t hct
      have hrev : ((d :: ds0) ++ unit_suffix u).reverse =
          'o' :: ((d :: ds0) ++ (' ' :: u) ++ [' ', 'a', 'g']).reverse := by
        rw [hassoc]
        simp
      rw [hrev] at hct
      injection hct with h1 _
      rw [← h1]
      decide
  have hlow2 : strLower ((d :: ds0) ++ unit_suffix u) =
      (d :: ds0) ++ unit_suffix u := by
    simp only [strLower]
    rw [map_digits_append lowerChar (fun c h => lowerChar_digit h) _ _ hds]
    congr 1
    simp only [unit_suffix, List.map_cons, List.map_append]
    rw [show List.map lowerChar u = u from hlow]
    rfl
  have hbul2 : ((d :: ds0) ++ unit_suffix u).map bulletToSpace =
      (d :: ds0) ++ unit_suffix u := by
    rw [map_digits_append bulletToSpace (fun c h => bulletToSpace_of_digit h)
      _ _ hds]
    congr 1
    simp only [unit_suffix, List.map_cons, List.map_append]
    rw [show List.map bulletToSpace u = u from hbul]
    rfl
  have hrm1 : removeWordTokens edit_alts ((d :: ds0) ++ unit_suffix u) =
      (d :: ds0) ++ unit_suffix u := by
    unfold removeWordTokens
    rw [removeGo_digits_run (by decide) (d :: ds0) hds (by simp)
      (unit_suffix u) false, hedit]
  have hrm2 : removeWordTokens ago_alts ((d :: ds0) ++ unit_suffix u) =
      (d :: ds0) ++ (' ' :: (u ++ [' '])) := by
    unfold removeWordTokens
    rw [removeGo_digits_run (by decide) (d :: ds0) hds (by simp)
      (unit_suffix u) false, hago]
  have hrm3 : removeWordTokens ha_alts ((d :: ds0) ++ (' ' :: (u ++ [' ']))) =
      (d :: ds0) ++ (' ' :: (u ++ [' '])) := by
    unfold removeWordTokens
    rw [removeGo_digits_run (by decide) (d :: ds0) hds (by simp)
      (' ' :: (u ++ [' '])) false, hha]
  have hstrip1 : pyStrip ((d :: ds0) ++ (' ' :: (u ++ [' ']))) =
      (d :: ds0) ++ (' ' :: u) := by
    have heq : (d :: ds0) ++ (' ' :: (u ++ [' '])) =
        ((d :: ds0) ++ (' ' :: u)) ++ [' '] := by
      simp
    rw [heq]
    apply pyStrip_trailing_space (by simp)
    · rintro c t hct
      rw [List.cons_append] at hct
      injection hct with h1 _
      rw [← h1]
      exact pySpace_of_digit hd
    · rintro c t hct
      cases hurv : u.reverse with
      | nil =>
        rw [List.reverse_eq_nil_iff] at hurv
        exact absurd hurv hune
      | cons e2 t2 =>
        have hrev2 : ((d :: ds0) ++ (' ' :: u)).reverse =
            e2 :: (t2 ++ (' ' :: (d :: ds0).reverse)) := by
          rw [List.reverse_append, List.reverse_cons, hurv]
          simp
        rw [hrev2] at hct
        injection hct with h1 _
        rw [← h1]
        exact hur' e2 t2 hurv
  have hset1 : ¬((d :: ds0) ++ (' ' :: u) = "now".data ∨
      (d :: ds0) ++ (' ' :: u) = "just now".data ∨
      (d :: ds0) ++ (' ' :: u) = "agora".data ∨
      (d :: ds0) ++ (' ' :: u) = "agora mesmo".data) := by
    rw [List.cons_append]
    rintro (h | h | h | h) <;> exact digit_head_ne hd (by decide) _ _ h
  have hset2 : ¬((d :: ds0) ++ (' ' :: u) = "today".data ∨
      (d :: ds0) ++ (' ' :: u) = "hoje".data) := by
    rw [List.cons_append]
    rintro (h | h) <;> exact digit_head_ne hd (by decide) _ _ h
  have hset3 : ¬((d :: ds0) ++ (' ' :: u) = "yesterday".data ∨
      (d :: ds0) ++ (' ' :: u) = "ontem".data) := by
    rw [List.cons_append]
    rintro (h | h) <;> exact digit_head_ne hd (by decide) _ _ h
  have hc0ne : ¬((d :: ds0) ++ unit_suffix u = []) := by simp
  have hmain : relative_time_to_hours
      (some (String.mk ((d :: ds0) ++ unit_suffix u))) =
        patterns_loop unit_patterns ((d :: ds0) ++ (' ' :: u)) := by
    simp only [relative_time_to_hours]
    rw [hstrip0, hlow2, if_neg hc0ne, hbul2, hrm1, hrm2, hrm3, hstrip1,
      if_neg hset1, if_neg hset2, if_neg hset3]
  rw [hmain, patterns_loop_shape (d :: ds0) u (by simp) hds huh' hund'
    unit_patterns]
  have hfind : first_unit_mult u = some mult := by
    have h := List.all_eq_true.mp
      (List.all_eq_true.mp units_mult_all (alts, mult) hmem) u hu
    simpa using h
  unfold first_unit_mult at hfind
  obtain ⟨q, hq, hq2⟩ := Option.map_eq_some'.mp hfind
  rw [hq, Option.map_some', hq2]

unseal Rat.mul Rat.inv Rat.add Rat.sub in
/-- C5 witness: "44 minutes ago" is parsed to exactly 44/60 hours. -/
theorem C5_relative_time_witness :
    relative_time_to_hours (some "44 minutes ago") = some (44 / 60) := by
  have h := C5_relative_time_unit_table ['4', '4'] (by decide) (by decide)
    minutes_alts (1 / 60) (by decide) "minutes".data (by decide)
  have hstr : ("44 minutes ago" : String) =
      String.mk (['4', '4'] ++ unit_suffix "minutes".data) := by decide
  rw [hstr, h]
  decide

/-! ## C8 — profile upsert (`_save_profile`, instagram_scraper.py 1380-1442)

The store is a list of `Profile` rows; `instagram_username` carries the
`unique=True` index of app/models.py line 28, modelled by the commit-time
uniqueness check (violations roll back and re-raise, lines 1439-1442). -/

/-- A `Profile` row (app/models.py lines 23-48), restricted to the columns
`_save_profile` writes. -/
structure ProfileRow where
  rid : Nat
  instagram_username : String
  full_name : Option String
  instagram_url : String
  bio : Option String
  is_private : Bool
  follower_count : Option Int
  following_count : Option Int
  post_count : Option Int
  verified : Bool
  last_scraped_at : Option Int
deriving DecidableEq

/-- The `profile_info` dict handed to `_save_profile`. -/
structure ProfileInfo where
  username : Option String
  full_name : Option String
  bio : Option String
  is_private : Bool
  follower_count : Option Int
  following_count : Option Int
  post_count : Option Int
  verified : Bool

/-- `str.split("/")` (keeping empty fields). -/
def splitSlashGo : List Char → List Char → List (List Char)
  | [], acc => [acc.reverse]
  | c :: cs, acc =>
    if c = '/' then acc.reverse :: splitSlashGo cs []
    else splitSlashGo cs (c :: acc)

/-- `_extract_username_from_url`: `url.rstrip("/").split("/")[-1]`
(instagram_scraper.py lines 51-55). -/
def extract_username_from_url (url : String) : String :=
  String.mk ((splitSlashGo (pyRstripSlash url.data) []).getLast?.getD [])

/-- The `username or extract(url)` step of `_save_profile` line 1390
(Python falsy `or`). -/
def save_profile_raw_username (profile_url : String) (info : ProfileInfo) :
    String :=
  match info.username with
  | some s => if s = "" then extract_username_from_url profile_url else s
  | none => extract_username_from_url profile_url

/-- `str(username).strip().lstrip("@").lower()` (line 1394). -/
def save_profile_username (profile_url : String) (info : ProfileInfo) :
    String :=
  String.mk (strLower (pyLstripAt (pyStrip
    (save_profile_raw_username profile_url info).data)))

/-- `profile_url.strip()` plus a guaranteed trailing slash (lines 1395-1397). -/
def save_profile_norm_url (profile_url : String) : String :=
  let s := pyStrip profile_url.data
  if s.reverse.head? = some '/' then String.mk s else String.mk (s ++ ['/'])

/-- The commit-time uniqueness of `profiles.instagram_username`
(unique index of app/models.py line 28). -/
def usernames_nodup (store : List ProfileRow) : Bool :=
  (store.map (·.instagram_username)).Nodup

/-- The row update performed on a found profile (lines 1406-1419). -/
def save_profile_update (username normUrl : String) (now : Int)
    (info : ProfileInfo) (r : ProfileRow) : ProfileRow :=
  { r with
    instagram_username := username
    instagram_url := normUrl
    full_name := info.full_name
    bio := info.bio
    is_private := info.is_private
    follower_count := info.follower_count
    following_count := info.following_count
    post_count := info.post_count
    verified := info.verified
    last_scraped_at := some now }

/-- The store produced by the SQL statements of `_save_profile`
(instagram_scraper.py lines 1398-1434) before the commit: the first row
matching case-insensitive username OR exact URL is updated in place,
otherwise a fresh row is appended.  Also returns the next fresh id and the
touched row's id. -/
def save_profile_candidate (store : List ProfileRow) (nextId : Nat)
    (now : Int) (profile_url : String) (info : ProfileInfo) :
    List ProfileRow × Nat × Nat :=
  match store.find? (fun r =>
      String.mk (strLower r.instagram_username.data) =
        save_profile_username profile_url info ∨
      r.instagram_url = save_profile_norm_url profile_url) with
  | some existing =>
    (store.map (fun r =>
      if r.rid = existing.rid then
        save_profile_update (save_profile_username profile_url info)
          (save_profile_norm_url profile_url) now info r
      else r), nextId, existing.rid)
  | none =>
    (store ++ [⟨nextId, save_profile_username profile_url info,
      info.full_name, save_profile_norm_url profile_url, info.bio,
      info.is_private, info.follower_count, info.following_count,
      info.post_count, info.verified, some now⟩], nextId + 1, nextId)

/-- `_save_profile` (instagram_scraper.py lines 1380-1442): reject an empty
username (line 1391), run the update-or-insert, and commit - the commit
enforces the unique index on `instagram_username`, and a violation rolls the
store back and re-raises (lines 1439-1442). -/
def save_profile (store : List ProfileRow) (nextId : Nat) (now : Int)
    (profile_url : String) (info : ProfileInfo) :
    Except String (List ProfileRow × Nat × Nat) :=
  if save_profile_raw_username profile_url info = "" then
    .error "Nao foi possivel determinar username do perfil para persistencia."
  else if usernames_nodup
      (save_profile_candidate store nextId now profile_url info).1 then
    .ok (save_profile_candidate store nextId now profile_url info)
  else .error "IntegrityError: duplicate instagram_username"

/-- The session state after `_save_profile` - on an exception the
transaction is rolled back (line 1441), leaving the store unchanged. -/
def save_profile_result_store (store : List ProfileRow) (nextId : Nat)
    (now : Int) (profile_url : String) (info : ProfileInfo) :
    List ProfileRow :=
  match save_profile store nextId now profile_url info with
  | .ok (s, _, _) => s
  | .error _ => store

theorem find?_eq_some_of_unique {α : Type} {p : α → Bool} {l : List α}
    {r : α} (hr : r ∈ l) (hpr : p r = true)
    (huniq : ∀ x ∈ l, p x = true → x = r) : l.find? p = some r := by
  induction l with
  | nil => exact absurd hr (List.not_mem_nil r)
  | cons a t ih =>
    by_cases ha : p a = true
    · rw [List.find?_cons_of_pos _ ha]
      exact congrArg some (huniq a (List.mem_cons_self a t) ha)
    · rw [List.find?_cons_of_neg _ ha]
      rcases List.mem_cons.mp hr with h | h
      · subst h; exact absurd hpr ha
      · exact ih h (fun x hx hpx => huniq x (List.mem_cons_of_mem a hx) hpx)

/-- Every row of the pre-commit store is either an untouched old row or
carries the freshly normalized username. -/
theorem save_profile_candidate_mem (store : List ProfileRow) (nextId : Nat)
    (now : Int) (profile_url : String) (info : ProfileInfo) (x : ProfileRow)
    (hx : x ∈ (save_profile_candidate store nextId now profile_url info).1) :
    x ∈ store ∨
      x.instagram_username = save_profile_username profile_url info := by
  revert hx
  unfold save_profile_candidate
  cases store.find? (fun r =>
      String.mk (strLower r.instagram_username.data) =
        save_profile_username profile_url info ∨
      r.instagram_url = save_profile_norm_url profile_url) with
  | some existing =>
    intro hx
    rcases List.mem_map.mp hx with ⟨y, hy, hfy⟩
    by_cases hid : y.rid = existing.rid
    · rw [if_pos hid] at hfy
      right
      rw [← hfy]
      rfl
    · rw [if_neg hid] at hfy
      left
      rw [← hfy]
      exact hy
  | none =>
    intro hx
    rcases List.mem_append.mp hx with h | h
    · exact Or.inl h
    · right
      rw [List.mem_singleton.mp h]

/-- With a lowercase duplicate-free store, an exact username match and no URL
match, the pre-commit store updates exactly the matching row. -/
theorem save_profile_candidate_update (store : List ProfileRow)
    (nextId : Nat) (now : Int) (profile_url : String) (info : ProfileInfo)
    (hlow : ∀ x ∈ store,
      strLower x.instagram_username.data = x.instagram_username.data)
    (hnodup : usernames_nodup store = true)
    (r : ProfileRow) (hr : r ∈ store)
    (hmatch : r.instagram_username = save_profile_username profile_url info)
    (hnourl : ∀ x ∈ store,
      x.instagram_url ≠ save_profile_norm_url profile_url) :
    save_profile_candidate store nextId now profile_url info =
      (store.map (fun x =>
        if x.rid = r.rid then
          save_profile_update (save_profile_username profile_url info)
            (save_profile_norm_url profile_url) now info x
        else x), nextId, r.rid) := by
  have hnd : (store.map (·.instagram_username)).Nodup :=
    of_decide_eq_true hnodup
  have hfind : store.find? (fun x =>
      String.mk (strLower x.instagram_username.data) =
        save_profile_username profile_url info ∨
      x.instagram_url = save_profile_norm_url profile_url) = some r := by
    apply find?_eq_some_of_unique hr
    · simp only [decide_eq_true_eq]
      left
      rw [hlow r hr]
      exact hmatch
    · intro x hx hpx
      simp only [decide_eq_true_eq] at hpx
      rcases hpx with h | h
      · rw [hlow x hx] at h
        have h2 : x.instagram_username =
            save_profile_username profile_url info := h
        exact List.inj_on_of_nodup_map hnd hx hr (h2.trans hmatch.symm)
      · exact absurd h (hnourl x hx)
  unfold save_profile_candidate
  rw [hfind]

/-- Updating the matching row with its own username leaves the list of
stored usernames unchanged. -/
theorem save_profile_update_usernames (store : List ProfileRow)
    (now : Int) (profile_url : String) (info : ProfileInfo)
    (hrids : (store.map (·.rid)).Nodup)
    (r : ProfileRow) (hr : r ∈ store)
    (hmatch : r.instagram_username = save_profile_username profile_url info) :
    (store.map (fun x =>
      if x.rid = r.rid then
        save_profile_update (save_profile_username profile_url info)
          (save_profile_norm_url profile_url) now info x
      else x)).map (·.instagram_username) =
    store.map (·.instagram_username) := by
  rw [List.map_map]
  apply List.map_congr_left
  intro x hx
  simp only [Function.comp_apply]
  by_cases hid : x.rid = r.rid
  · have hxr : x = r := List.inj_on_of_nodup_map hrids hx hr hid
    subst hxr
    rw [if_pos hid]
    exact hmatch.symm
  · rw [if_neg hid]

/-- `_save_profile` either rolls back (store unchanged) or commits the
pre-commit store after the uniqueness check passed. -/
theorem save_profile_result_cases (store : List ProfileRow) (nextId : Nat)
    (now : Int) (profile_url : String) (info : ProfileInfo) :
    save_profile_result_store store nextId now profile_url info = store ∨
      (save_profile_result_store store nextId now profile_url info =
        (save_profile_candidate store nextId now profile_url info).1 ∧
       usernames_nodup
         (save_profile_candidate store nextId now profile_url info).1 =
         true) := by
  unfold save_profile_result_store save_profile
  by_cases h1 : save_profile_raw_username profile_url info = ""
  · rw [if_pos h1]
    exact Or.inl rfl
  · rw [if_neg h1]
    by_cases h2 : usernames_nodup
        (save_profile_candidate store nextId now profile_url info).1 = true
    · rw [if_pos h2]
      exact Or.inr ⟨rfl, h2⟩
    · rw [if_neg h2]
      exact Or.inl rfl

/-- A lowercase store with duplicate-free usernames has pairwise
case-insensitively distinct usernames. -/
theorem lower_nodup_pairwise (l : List ProfileRow)
    (hlow : ∀ r ∈ l,
      strLower r.instagram_username.data = r.instagram_username.data)
    (hnodup : usernames_nodup l = true) :
    l.Pairwise (fun a b =>
      strLower a.instagram_username.data ≠
        strLower b.instagram_username.data) := by
  have hnd : (l.map (·.instagram_username)).Nodup := of_decide_eq_true hnodup
  have hp : l.Pairwise (fun a b =>
      a.instagram_username ≠ b.instagram_username) :=
    List.pairwise_map.mp hnd
  refine hp.imp_of_mem ?_
  intro a b ha hb hne heq
  apply hne
  rw [hlow a ha, hlow b hb] at heq
  exact congrArg String.mk heq

/-- C8: `_save_profile` looks rows up by case-insensitive username equality
OR canonical-URL equality (instagram_scraper.py lines 1398-1401).  On a
store whose usernames are lowercase and duplicate-free (the invariant the
unique index of app/models.py line 28 maintains), re-upserting with only a
username match (no URL match) updates the existing row in place - the store
keeps its length and the call returns the old row id - and every store
`_save_profile` can leave behind again has lowercase, duplicate-free, hence
pairwise case-insensitively distinct usernames. -/
theorem C8_profile_upsert_lookup_and_uniqueness
    (store : List ProfileRow) (nextId : Nat) (now : Int)
    (profile_url : String) (info : ProfileInfo)
    (hlow : ∀ x ∈ store,
      strLower x.instagram_username.data = x.instagram_username.data)
    (hnodup : usernames_nodup store = true)
    (hrids : (store.map (·.rid)).Nodup) :
    (∀ r ∈ store,
      save_profile_raw_username profile_url info ≠ "" →
      r.instagram_username = save_profile_username profile_url info →
      (∀ x ∈ store, x.instagram_url ≠ save_profile_norm_url profile_url) →
      ∃ s, save_profile store nextId now profile_url info =
          .ok (s, nextId, r.rid) ∧
        s.length = store.length ∧
        save_profile_update (save_profile_username profile_url info)
          (save_profile_norm_url profile_url) now info r ∈ s) ∧
    (∀ r ∈ save_profile_result_store store nextId now profile_url info,
      strLower r.instagram_username.data = r.instagram_username.data) ∧
    usernames_nodup
      (save_profile_result_store store nextId now profile_url info) =
      true ∧
    (save_profile_result_store store nextId now profile_url info).Pairwise
      (fun a b =>
        strLower a.instagram_username.data ≠
          strLower b.instagram_username.data) := by
  have hlowres : ∀ r ∈
      save_profile_result_store store nextId now profile_url info,
      strLower r.instagram_username.data = r.instagram_username.data := by
    rcases save_profile_result_cases store nextId now profile_url info with
      h | ⟨h, _⟩
    · rw [h]
      exact hlow
    · rw [h]
      intro r hr
      rcases save_profile_candidate_mem store nextId now profile_url info
        r hr with hm | hm
      · exact hlow r hm
      · rw [hm]
        show strLower (strLower (pyLstripAt (pyStrip
            (save_profile_raw_username profile_url info).data))) =
          strLower (pyLstripAt (pyStrip
            (save_profile_raw_username profile_url info).data))
        exact strLower_idem _
  have hnodupres : usernames_nodup
      (save_profile_result_store store nextId now profile_url info) =
      true := by
    rcases save_profile_result_cases store nextId now profile_url info with
      h | ⟨h, h2⟩
    · rw [h]
      exact hnodup
    · rw [h]
      exact h2
  refine ⟨?_, hlowres, hnodupres, lower_nodup_pairwise _ hlowres hnodupres⟩
  intro r hr hraw hmatch hnourl
  have hcd := save_profile_candidate_update store nextId now profile_url
    info hlow hnodup r hr hmatch hnourl
  have husr := save_profile_update_usernames store now profile_url info
    hrids r hr hmatch
  have hndstore : usernames_nodup
      (save_profile_candidate store nextId now profile_url info).1 =
      true := by
    rw [hcd]
    show usernames_nodup (store.map fun x =>
      if x.rid = r.rid then
        save_profile_update (save_profile_username profile_url info)
          (save_profile_norm_url profile_url) now info x
      else x) = true
    unfold usernames_nodup
    rw [husr]
    exact hnodup
  refine ⟨store.map (fun x =>
      if x.rid = r.rid then
        save_profile_update (save_profile_username profile_url info)
          (save_profile_norm_url profile_url) now info x
      else x), ?_, ?_, ?_⟩
  · unfold save_profile
    rw [if_neg hraw, if_pos hndstore, hcd]
  · exact List.length_map store _
  · have hm := List.mem_map_of_mem (fun x =>
      if x.rid = r.rid then
        save_profile_update (save_profile_username profile_url info)
          (save_profile_norm_url profile_url) now info x
      else x) hr
    simpa using hm

/-- C8 witness: on a one-row store holding username "alice", re-upserting
profile data carrying username "ALICE" under a different URL updates the
stored row in place, keeping the store at one row and returning row id 1. -/
theorem C8_profile_upsert_witness :
    ∃ s, save_profile
        [⟨1, "alice", none, "https://www.instagram.com/alice/", none, false,
          none, none, none, false, some 0⟩] 2 5
        "https://instagram.com/other"
        ⟨some "ALICE", some "Alice A", none, false, some 10, none, none,
          false⟩ = .ok (s, 2, 1) ∧
      s.length = 1 ∧
      save_profile_update
        (save_profile_username "https://instagram.com/other"
          ⟨some "ALICE", some "Alice A", none, false, some 10, none, none,
            false⟩)
        (save_profile_norm_url "https://instagram.com/other") 5
        ⟨some "ALICE", some "Alice A", none, false, some 10, none, none,
          false⟩
        ⟨1, "alice", none, "https://www.instagram.com/alice/", none, false,
          none, none, none, false, some 0⟩ ∈ s := by
  have h := (C8_profile_upsert_lookup_and_uniqueness
      [⟨1, "alice", none, "https://www.instagram.com/alice/", none, false,
        none, none, none, false, some 0⟩] 2 5 "https://instagram.com/other"
      ⟨some "ALICE", some "Alice A", none, false, some 10, none, none,
        false⟩ (by decide) (by decide) (by decide)).1
      ⟨1, "alice", none, "https://www.instagram.com/alice/", none, false,
        none, none, none, false, some 0⟩ (by decide) (by decide)
      (by decide) (by decide)
  exact h

/-! ## C3 — merging primary and fallback post lists
(`_merge_posts_data`, instagram_scraper.py lines 257-304, with
`_normalize_post_item` lines 123-155 and `_to_int_or_none` lines 77-121).
Scraped dict fields whose interesting cases are dynamic typing are modelled
by `PVal`; fields the code only ever treats as JSON strings or null
(`caption`, `full_caption_text`, `posted_at`) at `Option String`. -/

/-- A dynamically typed scraped value. -/
inductive PVal where
  | none
  | str (s : String)
  | int (n : Int)
  | float (q : ℚ)
  | bool (b : Bool)
deriving DecidableEq

/-- Python truthiness of a `PVal`. -/
def pyTruthy : PVal → Bool
  | .none => false
  | .str s => s ≠ ""
  | .int n => n ≠ 0
  | .float q => q ≠ 0
  | .bool b => b

/-- `a or b` on scraped values. -/
def pvalOr (a b : PVal) : PVal := if pyTruthy a then a else b

/-- A raw post dict as handed to `_normalize_post_item`. -/
structure RawItem where
  post_url : PVal
  canonical_post_url : PVal
  caption : Option String
  full_caption_text : Option String
  posted_at : Option String
  like_count : PVal
  comment_count : PVal
deriving DecidableEq

/-- The dict `_normalize_post_item` returns (lines 149-155). -/
structure NormPost where
  post_url : Option String
  caption : Option String
  like_count : Int
  comment_count : Int
  posted_at : Option String
deriving DecidableEq

/-- `int(x)` on a rational: truncation toward zero. -/
def pyInt (q : ℚ) : Int := if q < 0 then -((-q).floor) else q.floor

/-- The groups of `re.search(r"(\d+(?:[.,]\d+)?)\s*([km]?)", text)` once the
match position is fixed at a digit: the integer digit run, the optional
separator-plus-digit-run fraction, and the optional k/m suffix. -/
def to_int_parse_at (s : List Char) : List Char × Option (Char × List Char) × Option Char :=
  let intPart := s.takeWhile Char.isDigit
  let rest := s.dropWhile Char.isDigit
  let frPair : Option (Char × List Char) × List Char :=
    match rest with
    | c :: r =>
      if (c = '.' ∨ c = ',') ∧ (r.head?.map Char.isDigit).getD false then
        (some (c, r.takeWhile Char.isDigit), r.dropWhile Char.isDigit)
      else (Option.none, rest)
    | [] => (Option.none, rest)
  let rest3 := frPair.2.dropWhile pySpace
  let suffix : Option Char :=
    match rest3 with
    | c :: _ => if c = 'k' ∨ c = 'm' then some c else Option.none
    | [] => Option.none
  (intPart, frPair.1, suffix)

/-- `re.search` for the number-suffix pattern: the first digit starts the
match (the pattern begins with `\d+`, so a match can start only on a
digit). -/
def to_int_search : List Char → Option (List Char × Option (Char × List Char) × Option Char)
  | [] => Option.none
  | c :: cs => if c.isDigit then some (to_int_parse_at (c :: cs)) else to_int_search cs

/-- The thousands/decimal disambiguation of lines 97-109 applied to the
captured `\d+(?:[.,]\d+)?` text: a single separator exists, and a 3-digit
tail after it reads as a thousands separator (joined), any other tail as a
decimal fraction - identically for `,` and `.`. -/
def sep_number_value (intPart : List Char) (fr : Option (Char × List Char)) : ℚ :=
  match fr with
  | Option.none => (digitsToNat intPart : ℚ)
  | some (_, frac) =>
    if frac.length = 3 then (digitsToNat (intPart ++ frac) : ℚ)
    else (digitsToNat intPart : ℚ) + (digitsToNat frac : ℚ) / (10 : ℚ) ^ frac.length

/-- `_to_int_or_none` (instagram_scraper.py lines 77-121). -/
def to_int_or_none : PVal → Option Int
  | .none => Option.none
  | .bool _ => Option.none
  | .int n => some n
  | .float q => some (pyInt q)
  | .str s =>
    let text := strLower (pyStrip s.data)
    if text = [] then Option.none
    else
      match to_int_search text with
      | Option.none => Option.none
      | some (intPart, fr, suffix) =>
        let number := sep_number_value intPart fr
        some (pyInt (if suffix = some 'k' then number * 1000
          else if suffix = some 'm' then number * 1000000 else number))

/-- The `post_url` normalization of `_normalize_post_item` (lines 124-132):
a string is stripped, a bare `/p/` path is prefixed with the Instagram host,
and a post/reel URL gains a trailing slash; a non-string falls back to
`fallback_url`. -/
def normalize_post_url (v : PVal) (fallback_url : Option String) : Option String :=
  match v with
  | .str s =>
    let s1 := pyStrip s.data
    let s2 := if List.isPrefixOf "/p/".data s1 then
        "https://www.instagram.com".data ++ s1 else s1
    some (String.mk (if s2 ≠ [] ∧
        (containsSub s2 "/p/".data ∨ containsSub s2 "/reel/".data) ∧
        s2.reverse.head? ≠ some '/' then s2 ++ ['/'] else s2))
  | _ => fallback_url

/-- `str(x).strip() or None` on an optional string field. -/
def strip_or_none (v : Option String) : Option String :=
  match v with
  | some c => if pyStrip c.data = [] then Option.none else some (String.mk (pyStrip c.data))
  | Option.none => Option.none

/-- `_normalize_post_item` (instagram_scraper.py lines 123-155). -/
def normalize_post_item (item : RawItem) (fallback_url : Option String) : NormPost :=
  { post_url := normalize_post_url
      (pvalOr item.post_url (pvalOr item.canonical_post_url
        (match fallback_url with | some s => PVal.str s | Option.none => PVal.none)))
      fallback_url
    caption := strip_or_none
      (match item.caption with
       | some c => some c
       | Option.none => item.full_caption_text)
    like_count := (to_int_or_none item.like_count).getD 0
    comment_count := (to_int_or_none item.comment_count).getD 0
    posted_at := strip_or_none item.posted_at }

/-- Characters that may appear in a URL scheme. -/
def isSchemeChar (c : Char) : Bool :=
  c.isAlpha || c.isDigit || c = '+' || c = '-' || c = '.'

/-- The `f"{parsed.netloc}{parsed.path}".rstrip("/")` key of `_url_key`
(lines 266-273), with `urlparse` modelled on its scheme/netloc/path
grammar: an alphanumeric scheme before `:` is dropped, `//` opens a netloc
running to the next `/`, `?` or `#`, and the path stops at `?` or `#`. -/
def url_key_of_string (url : String) : String :=
  let s := url.data
  let pre := s.takeWhile (· ≠ ':')
  let rest :=
    if pre.length < s.length ∧ pre ≠ [] ∧ pre.all isSchemeChar ∧
        (pre.head?.map Char.isAlpha).getD false then
      s.drop (pre.length + 1)
    else s
  let body :=
    if rest.take 2 = ['/', '/'] then
      (rest.drop 2).takeWhile (fun c => ¬ (c = '/' ∨ c = '?' ∨ c = '#')) ++
      (((rest.drop 2).dropWhile
          (fun c => ¬ (c = '/' ∨ c = '?' ∨ c = '#'))).takeWhile
        (· ≠ '#')).takeWhile (· ≠ '?')
    else (rest.takeWhile (· ≠ '#')).takeWhile (· ≠ '?')
  String.mk (pyRstripSlash body)

/-- `_url_key` on the optional `post_url` field: falsy input gives `None`. -/
def url_key (url : Option String) : Option String :=
  match url with
  | Option.none => Option.none
  | some u => if u = "" then Option.none else some (url_key_of_string u)

/-- The truthy value of `_url_key`, as tested by `if url_key:` - an empty
key behaves like a missing one. -/
def url_key_t (url : Option String) : Option String :=
  match url_key url with
  | some k => if k = "" then Option.none else some k
  | Option.none => Option.none

/-- Python falsiness of an optional string (`None` or `""`). -/
def strFalsy : Option String → Bool
  | Option.none => true
  | some s => s = ""

/-- The in-place enrichment of a found merge target from a fallback record
(instagram_scraper.py lines 288-295): each field is filled only when the
target holds a falsy/zero value and the fallback a truthy/positive one. -/
def fill_target (target normalized : NormPost) : NormPost :=
  { target with
    caption := if strFalsy target.caption ∧ ¬ strFalsy normalized.caption = true
      then normalized.caption else target.caption
    like_count := if target.like_count = 0 ∧ normalized.like_count > 0
      then normalized.like_count else target.like_count
    comment_count := if target.comment_count = 0 ∧ normalized.comment_count > 0
      then normalized.comment_count else target.comment_count
    posted_at := if strFalsy target.posted_at ∧ ¬ strFalsy normalized.posted_at = true
      then normalized.posted_at else target.posted_at }

/-- The all-holes record, used as the (never reached) `getD` default. -/
def defaultNorm : NormPost := ⟨Option.none, Option.none, 0, 0, Option.none⟩

/-- The primary loop of `_merge_posts_data` (lines 275-282): a keyed record
not yet indexed is appended and indexed, a keyed duplicate is dropped, an
unkeyed record is appended.  `by_url` maps keys to positions in `merged`
(the Python dict holds the same mutable object the list holds). -/
def merge_phase1 : List RawItem → List NormPost × List (String × Nat) →
    List NormPost × List (String × Nat)
  | [], st => st
  | src :: rest, (merged, byUrl) =>
    match url_key_t (normalize_post_item src Option.none).post_url with
    | some k =>
      if (byUrl.find? (fun p => p.1 = k)).isSome then
        merge_phase1 rest (merged, byUrl)
      else
        merge_phase1 rest (merged ++ [normalize_post_item src Option.none],
          byUrl ++ [(k, merged.length)])
    | Option.none =>
      merge_phase1 rest (merged ++ [normalize_post_item src Option.none], byUrl)

/-- The fallback loop of `_merge_posts_data` (lines 284-301): a record whose
key is already indexed fills holes in the indexed target in place and is
dropped; otherwise the record is appended (and indexed when keyed), and the
loop breaks once `max_posts` records exist. -/
def merge_phase2 (max_posts : Nat) : List RawItem →
    List NormPost × List (String × Nat) → List NormPost × List (String × Nat)
  | [], st => st
  | src :: rest, (merged, byUrl) =>
    match url_key_t (normalize_post_item src Option.none).post_url with
    | some k =>
      match byUrl.find? (fun p => p.1 = k) with
      | some p =>
        merge_phase2 max_posts rest
          (merged.set p.2
            (fill_target (merged.getD p.2 defaultNorm)
              (normalize_post_item src Option.none)), byUrl)
      | Option.none =>
        if max_posts ≤ (merged ++ [normalize_post_item src Option.none]).length then
          (merged ++ [normalize_post_item src Option.none],
            byUrl ++ [(k, merged.length)])
        else
          merge_phase2 max_posts rest
            (merged ++ [normalize_post_item src Option.none],
              byUrl ++ [(k, merged.length)])
    | Option.none =>
      if max_posts ≤ (merged ++ [normalize_post_item src Option.none]).length then
        (merged ++ [normalize_post_item src Option.none], byUrl)
      else
        merge_phase2 max_posts rest
          (merged ++ [normalize_post_item src Option.none], byUrl)

/-- `_merge_posts_data` (instagram_scraper.py lines 257-304). -/
def merge_posts_data (primary fallback : List RawItem) (max_posts : Nat) :
    List NormPost :=
  ((merge_phase2 max_posts fallback (merge_phase1 primary ([], []))).1).take
    max_posts

/-- `final` is `orig` with (at most) holes filled: the URL is untouched, and
each field either kept its value or was a falsy/zero hole that received a
truthy/positive value. -/
def fills_from (orig final : NormPost) : Prop :=
  final.post_url = orig.post_url ∧
  (final.caption = orig.caption ∨
    (strFalsy orig.caption = true ∧ ¬ strFalsy final.caption = true)) ∧
  (final.like_count = orig.like_count ∨
    (orig.like_count = 0 ∧ final.like_count > 0)) ∧
  (final.comment_count = orig.comment_count ∨
    (orig.comment_count = 0 ∧ final.comment_count > 0)) ∧
  (final.posted_at = orig.posted_at ∨
    (strFalsy orig.posted_at = true ∧ ¬ strFalsy final.posted_at = true))

theorem fills_from_refl (x : NormPost) : fills_from x x :=
  ⟨rfl, Or.inl rfl, Or.inl rfl, Or.inl rfl, Or.inl rfl⟩

theorem hole_step_trans {x y z : Option String}
    (h1 : y = x ∨ (strFalsy x = true ∧ ¬ strFalsy y = true))
    (h2 : z = y ∨ (strFalsy y = true ∧ ¬ strFalsy z = true)) :
    z = x ∨ (strFalsy x = true ∧ ¬ strFalsy z = true) := by
  rcases h1 with e1 | ⟨f1, n1⟩
  · rcases h2 with e2 | ⟨f2, n2⟩
    · exact Or.inl (e2.trans e1)
    · exact Or.inr ⟨by rw [← e1]; exact f2, n2⟩
  · rcases h2 with e2 | ⟨f2, n2⟩
    · exact Or.inr ⟨f1, by rw [e2]; exact n1⟩
    · exact Or.inr ⟨f1, n2⟩

theorem count_step_trans {x y z : Int}
    (h1 : y = x ∨ (x = 0 ∧ y > 0))
    (h2 : z = y ∨ (y = 0 ∧ z > 0)) :
    z = x ∨ (x = 0 ∧ z > 0) := by
  rcases h1 with e1 | ⟨f1, n1⟩
  · rcases h2 with e2 | ⟨f2, n2⟩
    · exact Or.inl (e2.trans e1)
    · exact Or.inr ⟨by rw [← e1]; exact f2, n2⟩
  · rcases h2 with e2 | ⟨f2, n2⟩
    · rw [e2]; exact Or.inr ⟨f1, n1⟩
    · exact absurd (f2 ▸ n1) (lt_irrefl 0)

theorem fills_from_trans {a b c : NormPost} (h1 : fills_from a b)
    (h2 : fills_from b c) : fills_from a c := by
  obtain ⟨hu1, hc1, hl1, hm1, hp1⟩ := h1
  obtain ⟨hu2, hc2, hl2, hm2, hp2⟩ := h2
  exact ⟨hu2.trans hu1, hole_step_trans hc1 hc2, count_step_trans hl1 hl2,
    count_step_trans hm1 hm2, hole_step_trans hp1 hp2⟩

theorem fill_target_fills (t n : NormPost) : fills_from t (fill_target t n) := by
  simp only [fills_from, fill_target]
  refine ⟨trivial, ?_, ?_, ?_, ?_⟩
  · by_cases h : strFalsy t.caption = true ∧ ¬ strFalsy n.caption = true
    · rw [if_pos h]; exact Or.inr h
    · rw [if_neg h]; exact Or.inl rfl
  · by_cases h : t.like_count = 0 ∧ n.like_count > 0
    · rw [if_pos h]; exact Or.inr h
    · rw [if_neg h]; exact Or.inl rfl
  · by_cases h : t.comment_count = 0 ∧ n.comment_count > 0
    · rw [if_pos h]; exact Or.inr h
    · rw [if_neg h]; exact Or.inl rfl
  · by_cases h : strFalsy t.posted_at = true ∧ ¬ strFalsy n.posted_at = true
    · rw [if_pos h]; exact Or.inr h
    · rw [if_neg h]; exact Or.inl rfl

theorem forall₂_fills_trans :
    ∀ {l m k : List NormPost}, List.Forall₂ fills_from l m →
    List.Forall₂ fills_from m k → List.Forall₂ fills_from l k := by
  intro l
  induction l with
  | nil =>
    intro m k h1 h2
    cases h1
    cases h2
    exact List.Forall₂.nil
  | cons a t ih =>
    intro m k h1 h2
    cases h1 with
    | cons hab h1t =>
      cases h2 with
      | cons hbc h2t =>
        exact List.Forall₂.cons (fills_from_trans hab hbc) (ih h1t h2t)

theorem forall₂_append_split {α β : Type} {R : α → β → Prop} :
    ∀ {l1 l2 : List α} {u : List β}, List.Forall₂ R (l1 ++ l2) u →
    ∃ u1 u2, u = u1 ++ u2 ∧ List.Forall₂ R l1 u1 ∧ List.Forall₂ R l2 u2 := by
  intro l1
  induction l1 with
  | nil =>
    intro l2 u h
    exact ⟨[], u, rfl, List.Forall₂.nil, h⟩
  | cons a t ih =>
    intro l2 u h
    rw [List.cons_append] at h
    cases h with
    | cons hab ht =>
      rcases ih ht with ⟨u1, u2, rfl, h1, h2⟩
      exact ⟨_ :: u1, u2, rfl, List.Forall₂.cons hab h1, h2⟩

theorem getD_concat {α : Type} (l : List α) (a d : α) :
    (l ++ [a]).getD l.length d = a := by
  simp [List.getD]

theorem getD_set_self {α : Type} (l : List α) (i : Nat) (a d : α)
    (h : i < l.length) : (l.set i a).getD i d = a := by
  simp [List.getD, List.getElem?_set_self, h]

theorem getD_set_ne {α : Type} (l : List α) (i j : Nat) (a d : α)
    (h : i ≠ j) : (l.set i a).getD j d = l.getD j d := by
  simp [List.getD, List.getElem?_set_ne h]

/-- The invariant tying `by_url` to `merged`: every mapped key points at an
in-range record carrying that (truthy) key, keys are registered at most
once, and every keyed record is registered at its own position. -/
def ByUrlInv (merged : List NormPost) (byUrl : List (String × Nat)) : Prop :=
  (∀ p ∈ byUrl, p.2 < merged.length ∧
    url_key_t ((merged.getD p.2 defaultNorm).post_url) = some p.1) ∧
  (byUrl.map (·.1)).Nodup ∧
  (∀ i, i < merged.length → ∀ k,
    url_key_t ((merged.getD i defaultNorm).post_url) = some k →
    (k, i) ∈ byUrl)

/-- Appending a keyed record with an unregistered key, registering it at its
position, preserves the invariant. -/
theorem byUrlInv_append_keyed (merged : List NormPost)
    (byUrl : List (String × Nat)) (n : NormPost) (k : String)
    (hinv : ByUrlInv merged byUrl) (hk : url_key_t n.post_url = some k)
    (hknotin : ∀ p ∈ byUrl, ¬ (p.1 = k)) :
    ByUrlInv (merged ++ [n]) (byUrl ++ [(k, merged.length)]) := by
  obtain ⟨h1, h2, h3⟩ := hinv
  refine ⟨?_, ?_, ?_⟩
  · intro p hp
    rcases List.mem_append.mp hp with hp | hp
    · obtain ⟨hlt, hkey⟩ := h1 p hp
      refine ⟨by simp; omega, ?_⟩
      rw [List.getD_append _ _ _ _ hlt]
      exact hkey
    · rw [List.mem_singleton.mp hp]
      refine ⟨by simp, ?_⟩
      rw [getD_concat]
      exact hk
  · rw [List.map_append, List.nodup_append]
    refine ⟨h2, List.nodup_singleton _, ?_⟩
    intro a ha hak
    rcases List.mem_map.mp ha with ⟨p, hp, rfl⟩
    rcases List.mem_singleton.mp hak with rfl
    exact hknotin p hp rfl
  · intro i hi k2 hkey
    by_cases hil : i < merged.length
    · rw [List.getD_append _ _ _ _ hil] at hkey
      exact List.mem_append_left _ (h3 i hil k2 hkey)
    · have hieq : i = merged.length := by
        simp only [List.length_append, List.length_cons, List.length_nil] at hi
        omega
      subst hieq
      rw [getD_concat] at hkey
      have hk2 : k2 = k := by
        have h5 := hkey.symm.trans hk
        exact (Option.some.injEq _ _).mp h5
      subst hk2
      exact List.mem_append_right _ (List.mem_singleton.mpr rfl)

/-- Appending an unkeyed record preserves the invariant without touching the
index. -/
theorem byUrlInv_append_unkeyed (merged : List NormPost)
    (byUrl : List (String × Nat)) (n : NormPost)
    (hinv : ByUrlInv merged byUrl)
    (hk : url_key_t n.post_url = Option.none) :
    ByUrlInv (merged ++ [n]) byUrl := by
  obtain ⟨h1, h2, h3⟩ := hinv
  refine ⟨?_, h2, ?_⟩
  · intro p hp
    obtain ⟨hlt, hkey⟩ := h1 p hp
    refine ⟨by simp; omega, ?_⟩
    rw [List.getD_append _ _ _ _ hlt]
    exact hkey
  · intro i hi k2 hkey
    by_cases hil : i < merged.length
    · rw [List.getD_append _ _ _ _ hil] at hkey
      exact h3 i hil k2 hkey
    · have hieq : i = merged.length := by
        simp only [List.length_append, List.length_cons, List.length_nil] at hi
        omega
      subst hieq
      rw [getD_concat] at hkey
      rw [hk] at hkey
      exact absurd hkey (Option.noConfusion)

/-- The primary loop preserves the index invariant and only appends
normalized primary records, in order. -/
theorem merge_phase1_spec (primary : List RawItem) :
    ∀ (merged : List NormPost) (byUrl : List (String × Nat)),
    ByUrlInv merged byUrl →
    ByUrlInv (merge_phase1 primary (merged, byUrl)).1
      (merge_phase1 primary (merged, byUrl)).2 ∧
    ∃ extra, (merge_phase1 primary (merged, byUrl)).1 = merged ++ extra ∧
      List.Sublist extra
        (primary.map (fun s => normalize_post_item s Option.none)) := by
  induction primary with
  | nil =>
    intro merged byUrl hinv
    exact ⟨hinv, [], by simp [merge_phase1], List.nil_sublist _⟩
  | cons src rest ih =>
    intro merged byUrl hinv
    cases hk : url_key_t (normalize_post_item src Option.none).post_url with
    | some k =>
      by_cases hf : (byUrl.find? (fun p => p.1 = k)).isSome = true
      · have heq : merge_phase1 (src :: rest) (merged, byUrl) =
            merge_phase1 rest (merged, byUrl) := by
          simp only [merge_phase1, hk, if_pos hf]
        rw [heq]
        obtain ⟨hinv2, extra, hext, hsub⟩ := ih merged byUrl hinv
        refine ⟨hinv2, extra, hext, ?_⟩
        rw [List.map_cons]
        exact hsub.cons _
      · have heq : merge_phase1 (src :: rest) (merged, byUrl) =
            merge_phase1 rest
              (merged ++ [normalize_post_item src Option.none],
                byUrl ++ [(k, merged.length)]) := by
          simp only [merge_phase1, hk, if_neg hf]
        have hknotin : ∀ p ∈ byUrl, ¬ (p.1 = k) := by
          intro p hp hpk
          exact hf (List.find?_isSome.mpr ⟨p, hp, decide_eq_true hpk⟩)
        have hinv2 : ByUrlInv (merged ++ [normalize_post_item src Option.none])
            (byUrl ++ [(k, merged.length)]) :=
          byUrlInv_append_keyed _ _ _ _ hinv hk hknotin
        rw [heq]
        obtain ⟨hinv3, extra, hext, hsub⟩ := ih _ _ hinv2
        refine ⟨hinv3, normalize_post_item src Option.none :: extra, ?_, ?_⟩
        · rw [hext, List.append_assoc, List.singleton_append]
        · rw [List.map_cons]
          exact hsub.cons₂ _
    | none =>
      have heq : merge_phase1 (src :: rest) (merged, byUrl) =
          merge_phase1 rest
            (merged ++ [normalize_post_item src Option.none], byUrl) := by
        simp only [merge_phase1, hk]
      have hinv2 : ByUrlInv (merged ++ [normalize_post_item src Option.none])
          byUrl := byUrlInv_append_unkeyed _ _ _ hinv hk
      rw [heq]
      obtain ⟨hinv3, extra, hext, hsub⟩ := ih _ _ hinv2
      refine ⟨hinv3, normalize_post_item src Option.none :: extra, ?_, ?_⟩
      · rw [hext, List.append_assoc, List.singleton_append]
      · rw [List.map_cons]
        exact hsub.cons₂ _

/-- Filling holes in an indexed record preserves the invariant: the filled
record keeps its URL, hence its key. -/
theorem byUrlInv_set_fill (merged : List NormPost)
    (byUrl : List (String × Nat)) (n : NormPost) (p : String × Nat)
    (hinv : ByUrlInv merged byUrl) (hplt : p.2 < merged.length) :
    ByUrlInv (merged.set p.2
      (fill_target (merged.getD p.2 defaultNorm) n)) byUrl := by
  obtain ⟨h1, h2, h3⟩ := hinv
  refine ⟨?_, h2, ?_⟩
  · intro q hq
    obtain ⟨hqlt, hqkey⟩ := h1 q hq
    refine ⟨by rw [List.length_set]; exact hqlt, ?_⟩
    by_cases hqp : q.2 = p.2
    · rw [hqp] at hqkey ⊢
      rw [getD_set_self _ _ _ _ hplt]
      exact hqkey
    · rw [getD_set_ne _ _ _ _ _ (fun h => hqp h.symm)]
      exact hqkey
  · intro i hi k2 hkey
    rw [List.length_set] at hi
    by_cases hip : i = p.2
    · rw [hip] at hkey ⊢
      rw [getD_set_self _ _ _ _ hplt] at hkey
      exact h3 p.2 hplt k2 hkey
    · rw [getD_set_ne _ _ _ _ _ (fun h => hip h.symm)] at hkey
      exact h3 i hi k2 hkey

/-- Hole-filling one indexed record is a `fills_from` step on the store. -/
theorem forall₂_set_fill (merged : List NormPost) (i : Nat) (n : NormPost)
    (h : i < merged.length) :
    List.Forall₂ fills_from merged
      (merged.set i (fill_target (merged.getD i defaultNorm) n)) := by
  rw [List.forall₂_iff_get]
  refine ⟨(List.length_set merged i _).symm, ?_⟩
  intro j h1j h2j
  rw [List.get_eq_getElem, List.get_eq_getElem]
  by_cases hij : j = i
  · subst hij
    rw [List.getElem_set_self]
    rw [List.getD_eq_getElem merged defaultNorm h1j]
    exact fill_target_fills _ _
  · rw [List.getElem_set_ne (fun hh => hij hh.symm)]
    exact fills_from_refl _

/-- The fallback loop preserves the invariant; its output is the input
records with holes filled followed by appended normalized fallback
records. -/
theorem merge_phase2_spec (max_posts : Nat) (fallback : List RawItem) :
    ∀ (merged : List NormPost) (byUrl : List (String × Nat)),
    ByUrlInv merged byUrl →
    ByUrlInv (merge_phase2 max_posts fallback (merged, byUrl)).1
      (merge_phase2 max_posts fallback (merged, byUrl)).2 ∧
    ∃ pref fb,
      (merge_phase2 max_posts fallback (merged, byUrl)).1 = pref ++ fb ∧
      List.Forall₂ fills_from merged pref ∧
      ∀ x ∈ fb, ∃ src ∈ fallback,
        fills_from (normalize_post_item src Option.none) x := by
  induction fallback with
  | nil =>
    intro merged byUrl hinv
    refine ⟨hinv, merged, [], by simp [merge_phase2],
      List.forall₂_same.mpr (fun x _ => fills_from_refl x), ?_⟩
    intro x hx
    exact absurd hx (List.not_mem_nil x)
  | cons src rest ih =>
    intro merged byUrl hinv
    cases hk : url_key_t (normalize_post_item src Option.none).post_url with
    | some k =>
      cases hfind : byUrl.find? (fun p => p.1 = k) with
      | some p =>
        have hpmem : p ∈ byUrl := List.mem_of_find?_eq_some hfind
        have hplt : p.2 < merged.length := (hinv.1 p hpmem).1
        have heq : merge_phase2 max_posts (src :: rest) (merged, byUrl) =
            merge_phase2 max_posts rest
              (merged.set p.2 (fill_target (merged.getD p.2 defaultNorm)
                (normalize_post_item src Option.none)), byUrl) := by
          simp only [merge_phase2, hk, hfind]
        rw [heq]
        have hinv2 := byUrlInv_set_fill merged byUrl
          (normalize_post_item src Option.none) p hinv hplt
        obtain ⟨hinv3, pref, fb, hsplit, hfa, hsrc⟩ := ih _ _ hinv2
        refine ⟨hinv3, pref, fb, hsplit, ?_, ?_⟩
        · exact forall₂_fills_trans
            (forall₂_set_fill merged p.2 _ hplt) hfa
        · intro x hx
          rcases hsrc x hx with ⟨s, hs, hfill⟩
          exact ⟨s, List.mem_cons_of_mem _ hs, hfill⟩
      | none =>
        have hknotin : ∀ q ∈ byUrl, ¬ (q.1 = k) := by
          intro q hq hqk
          exact absurd (List.find?_eq_none.mp hfind q hq)
            (fun hno => hno (decide_eq_true hqk))
        have hinv2 : ByUrlInv
            (merged ++ [normalize_post_item src Option.none])
            (byUrl ++ [(k, merged.length)]) :=
          byUrlInv_append_keyed _ _ _ _ hinv hk hknotin
        by_cases hb : max_posts ≤
            (merged ++ [normalize_post_item src Option.none]).length
        · have heq : merge_phase2 max_posts (src :: rest) (merged, byUrl) =
              (merged ++ [normalize_post_item src Option.none],
                byUrl ++ [(k, merged.length)]) := by
            simp only [merge_phase2, hk, hfind, if_pos hb]
          rw [heq]
          refine ⟨hinv2, merged, [normalize_post_item src Option.none], rfl,
            List.forall₂_same.mpr (fun x _ => fills_from_refl x), ?_⟩
          intro x hx
          rcases List.mem_singleton.mp hx with rfl
          exact ⟨src, List.mem_cons_self _ _, fills_from_refl _⟩
        · have heq : merge_phase2 max_posts (src :: rest) (merged, byUrl) =
              merge_phase2 max_posts rest
                (merged ++ [normalize_post_item src Option.none],
                  byUrl ++ [(k, merged.length)]) := by
            simp only [merge_phase2, hk, hfind, if_neg hb]
          rw [heq]
          obtain ⟨hinv3, pref, fb, hsplit, hfa, hsrc⟩ := ih _ _ hinv2
          rcases forall₂_append_split hfa with ⟨prefM, nl, rfl, hfaM, hfaN⟩
          cases hfaN with
          | cons hn1 htail =>
            rename_i b l2
            cases htail
            refine ⟨hinv3, prefM, b :: fb, ?_, hfaM, ?_⟩
            · rw [hsplit, List.append_assoc, List.singleton_append]
            · intro x hx
              rcases List.mem_cons.mp hx with rfl | hx
              · exact ⟨src, List.mem_cons_self _ _, hn1⟩
              · rcases hsrc x hx with ⟨s, hs, hfill⟩
                exact ⟨s, List.mem_cons_of_mem _ hs, hfill⟩
    | none =>
      have hinv2 : ByUrlInv
          (merged ++ [normalize_post_item src Option.none]) byUrl :=
        byUrlInv_append_unkeyed _ _ _ hinv hk
      by_cases hb : max_posts ≤
          (merged ++ [normalize_post_item src Option.none]).length
      · have heq : merge_phase2 max_posts (src :: rest) (merged, byUrl) =
            (merged ++ [normalize_post_item src Option.none], byUrl) := by
          simp only [merge_phase2, hk, if_pos hb]
        rw [heq]
        refine ⟨hinv2, merged, [normalize_post_item src Option.none], rfl,
          List.forall₂_same.mpr (fun x _ => fills_from_refl x), ?_⟩
        intro x hx
        rcases List.mem_singleton.mp hx with rfl
        exact ⟨src, List.mem_cons_self _ _, fills_from_refl _⟩
      · have heq : merge_phase2 max_posts (src :: rest) (merged, byUrl) =
            merge_phase2 max_posts rest
              (merged ++ [normalize_post_item src Option.none], byUrl) := by
          simp only [merge_phase2, hk, if_neg hb]
        rw [heq]
        obtain ⟨hinv3, pref, fb, hsplit, hfa, hsrc⟩ := ih _ _ hinv2
        rcases forall₂_append_split hfa with ⟨prefM, nl, rfl, hfaM, hfaN⟩
        cases hfaN with
        | cons hn1 htail =>
          rename_i b l2
          cases htail
          refine ⟨hinv3, prefM, b :: fb, ?_, hfaM, ?_⟩
          · rw [hsplit, List.append_assoc, List.singleton_append]
          · intro x hx
            rcases List.mem_cons.mp hx with rfl | hx
            · exact ⟨src, List.mem_cons_self _ _, hn1⟩
            · rcases hsrc x hx with ⟨s, hs, hfill⟩
              exact ⟨s, List.mem_cons_of_mem _ hs, hfill⟩

/-- The invariant forces pairwise-distinct truthy keys. -/
theorem byUrlInv_pairwise (merged : List NormPost)
    (byUrl : List (String × Nat)) (hinv : ByUrlInv merged byUrl) :
    merged.Pairwise (fun a b => ∀ k, url_key_t a.post_url = some k →
      ¬ url_key_t b.post_url = some k) := by
  obtain ⟨h1, h2, h3⟩ := hinv
  rw [List.pairwise_iff_get]
  intro i j hij k hki hkj
  have hgi : merged.getD i.1 defaultNorm = merged.get i := by
    rw [List.getD_eq_getElem merged defaultNorm i.2, List.get_eq_getElem]
  have hgj : merged.getD j.1 defaultNorm = merged.get j := by
    rw [List.getD_eq_getElem merged defaultNorm j.2, List.get_eq_getElem]
  have hmi : (k, i.1) ∈ byUrl := h3 i.1 i.2 k (by rw [hgi]; exact hki)
  have hmj : (k, j.1) ∈ byUrl := h3 j.1 j.2 k (by rw [hgj]; exact hkj)
  have hpair := List.inj_on_of_nodup_map h2 hmi hmj rfl
  have hij2 : i.1 = j.1 := congrArg Prod.snd hpair
  exact absurd hij2 (Nat.ne_of_lt hij)

/-- C3: `_merge_posts_data` keys records by normalized URL (host+path with
the trailing slash stripped, `url_key_t`); no two result records carry the
same truthy key; the result is the primary-phase records (normalized primary
records deduplicated by key, in order, possibly hole-filled later) followed
by appended fallback records, truncated to `max_posts`; and `fills_from`
states that a fallback value enters an existing record only to fill a
falsy/zero hole, never overwriting a present value. -/
theorem C3_merge_posts_data_keys_holes_order
    (primary fallback : List RawItem) (max_posts : Nat) :
    (merge_posts_data primary fallback max_posts).Pairwise
      (fun a b => ∀ k, url_key_t a.post_url = some k →
        ¬ url_key_t b.post_url = some k) ∧
    ∃ prim prim2 fb,
      List.Sublist prim
        (primary.map (fun s => normalize_post_item s Option.none)) ∧
      List.Forall₂ fills_from prim prim2 ∧
      (∀ x ∈ fb, ∃ src ∈ fallback,
        fills_from (normalize_post_item src Option.none) x) ∧
      merge_posts_data primary fallback max_posts =
        (prim2 ++ fb).take max_posts := by
  have hinv0 : ByUrlInv ([] : List NormPost) ([] : List (String × Nat)) := by
    refine ⟨?_, List.nodup_nil, ?_⟩
    · intro p hp
      exact absurd hp (List.not_mem_nil p)
    · intro i hi
      exact absurd hi (Nat.not_lt_zero i)
  obtain ⟨hinv1, extra, hext, hsub⟩ := merge_phase1_spec primary [] [] hinv0
  rcases hphase1 : merge_phase1 primary ([], []) with ⟨m1, b1⟩
  rw [hphase1] at hinv1 hext
  have hm1 : m1 = extra := by simpa using hext
  obtain ⟨hinv2, pref, fb, hsplit, hfa, hsrc⟩ :=
    merge_phase2_spec max_posts fallback m1 b1 hinv1
  constructor
  · unfold merge_posts_data
    rw [hphase1]
    exact (byUrlInv_pairwise _ _ hinv2).sublist (List.take_sublist _ _)
  · refine ⟨m1, pref, fb, ?_, hfa, hsrc, ?_⟩
    · rw [hm1]
      exact hsub
    · unfold merge_posts_data
      rw [hphase1, hsplit]

unseal Rat.mul Rat.inv Rat.add Rat.sub in
example : to_int_or_none (.str "1,2k") = some 1200 := by decide

unseal Rat.mul Rat.inv Rat.add Rat.sub in
example : to_int_or_none (.str "10.532") = some 10532 := by decide

unseal Rat.mul Rat.inv Rat.add Rat.sub in
example : to_int_or_none (.str "2.5m") = some 2500000 := by decide

example : url_key_t (some "https://www.instagram.com/p/AAA/") =
    some "www.instagram.com/p/AAA" := by decide

unseal Rat.mul Rat.inv Rat.add Rat.sub in
example : merge_posts_data
    [⟨.str "https://www.instagram.com/p/AAA/", .none, Option.none,
      Option.none, Option.none, .none, .none⟩]
    [⟨.str "https://www.instagram.com/p/AAA", .none, some "hey",
      Option.none, some "2025-01-01", .str "1,2k", .none⟩]
    5 =
    [⟨some "https://www.instagram.com/p/AAA/", some "hey", 1200, 0,
      some "2025-01-01"⟩] := by decide

/-! ## C7 — JSON recovery from noisy agent output
(`_recover_posts_from_raw_result`, instagram_scraper.py lines 380-396, and
`_extract_json_object_with_key`, browser_use_agent.py lines 506-519).
`json.JSONDecoder().raw_decode` is embedded as a fuelled scanner over the
Python `json` grammar (objects, arrays, strings with escapes, numbers,
true/false/null and the NaN/Infinity extras).  Floats are carried as exact
rationals and a lone `\u` surrogate collapses to the default character;
neither affects which texts decode nor any key lookup. -/

/-- A decoded JSON value; objects keep their key order (Python builds the
pairs list, then `dict(pairs)` - so duplicate keys resolve to the last
occurrence). -/
inductive JVal where
  | null
  | bool (b : Bool)
  | int (n : Int)
  | float (q : ℚ)
  | str (s : String)
  | arr (xs : List JVal)
  | obj (m : List (String × JVal))
  | nan
  | inf (neg : Bool)

/-- JSON whitespace (`' '`, tab, newline, carriage return). -/
def jsonWs (c : Char) : Bool := c = ' ' ∨ c = '\t' ∨ c = '\n' ∨ c = '\r'

def skipWs (s : List Char) : List Char := s.dropWhile jsonWs

def hexVal (c : Char) : Option Nat :=
  if c.isDigit then some (c.toNat - 48)
  else if 'a' ≤ c ∧ c ≤ 'f' then some (c.toNat - 87)
  else if 'A' ≤ c ∧ c ≤ 'F' then some (c.toNat - 55)
  else Option.none

/-- Single-character string escapes of the JSON grammar. -/
def escChar (e : Char) : Option Char :=
  if e = '"' then some '"'
  else if e = '\\' then some '\\'
  else if e = '/' then some '/'
  else if e = 'b' then some (Char.ofNat 8)
  else if e = 'f' then some (Char.ofNat 12)
  else if e = 'n' then some '\n'
  else if e = 'r' then some '\r'
  else if e = 't' then some '\t'
  else Option.none

/-- `py_scanstring` after the opening quote: literal characters (control
characters refused in strict mode), escapes, and `\u` with surrogate-pair
combination.  Returns the decoded content and the text after the closing
quote. -/
def jsonScanStr : Nat → List Char → Option (List Char × List Char)
  | 0, _ => Option.none
  | _ + 1, [] => Option.none
  | f + 1, c :: cs =>
    if c = '"' then some ([], cs)
    else if c = '\\' then
      match cs with
      | [] => Option.none
      | 'u' :: h1 :: h2 :: h3 :: h4 :: cs3 =>
        match hexVal h1, hexVal h2, hexVal h3, hexVal h4 with
        | some a, some b, some c2, some d =>
          let code := ((a * 16 + b) * 16 + c2) * 16 + d
          if 0xD800 ≤ code ∧ code ≤ 0xDBFF then
            match cs3 with
            | '\\' :: 'u' :: g1 :: g2 :: g3 :: g4 :: cs4 =>
              match hexVal g1, hexVal g2, hexVal g3, hexVal g4 with
              | some a2, some b2, some c3, some d2 =>
                let code2 := ((a2 * 16 + b2) * 16 + c3) * 16 + d2
                if 0xDC00 ≤ code2 ∧ code2 ≤ 0xDFFF then
                  (jsonScanStr f cs4).map (fun p =>
                    (Char.ofNat (0x10000 + (code - 0xD800) * 0x400 +
                      (code2 - 0xDC00)) :: p.1, p.2))
                else (jsonScanStr f cs3).map (fun p =>
                  (Char.ofNat code :: p.1, p.2))
              | _, _, _, _ =>
                (jsonScanStr f cs3).map (fun p => (Char.ofNat code :: p.1, p.2))
            | _ => (jsonScanStr f cs3).map (fun p => (Char.ofNat code :: p.1, p.2))
          else (jsonScanStr f cs3).map (fun p => (Char.ofNat code :: p.1, p.2))
        | _, _, _, _ => Option.none
      | e :: cs2 =>
        match escChar e with
        | some ch => (jsonScanStr f cs2).map (fun p => (ch :: p.1, p.2))
        | Option.none => Option.none
    else if c.toNat < 32 then Option.none
    else (jsonScanStr f cs).map (fun p => (c :: p.1, p.2))

/-- The `NUMBER_RE` match `-?(0|[1-9]\d+ or \d)(\.\d+)?([eE][+-]?\d+)?` at the
current position, converted as Python does: no fraction and no exponent
gives an `int`, otherwise a float (carried exactly in ℚ). -/
def parseNumberAt (s : List Char) : Option (JVal × List Char) :=
  let negS : Bool × List Char :=
    match s with
    | '-' :: t => (true, t)
    | _ => (false, s)
  let neg := negS.1
  let s1 := negS.2
  match s1.head? with
  | some c0 =>
    if c0.isDigit then
      let intDigits := if c0 = '0' then ['0'] else s1.takeWhile Char.isDigit
      let rest1 := s1.drop intDigits.length
      let fracDigits :=
        match rest1 with
        | '.' :: t => t.takeWhile Char.isDigit
        | _ => []
      let rest2 := if fracDigits = [] then rest1
        else rest1.drop (fracDigits.length + 1)
      let expInfo : Option (Bool × List Char × List Char) :=
        match rest2 with
        | e :: t =>
          if e = 'e' ∨ e = 'E' then
            let sgnT : Bool × List Char :=
              match t with
              | '+' :: u => (false, u)
              | '-' :: u => (true, u)
              | _ => (false, t)
            let ed := sgnT.2.takeWhile Char.isDigit
            if ed = [] then Option.none
            else some (sgnT.1, ed, sgnT.2.drop ed.length)
          else Option.none
        | [] => Option.none
      match expInfo with
      | Option.none =>
        if fracDigits = [] then
          some (JVal.int (if neg then -(digitsToNat intDigits : Int)
            else (digitsToNat intDigits : Int)), rest1)
        else
          some (JVal.float ((if neg then -1 else 1) *
            ((digitsToNat intDigits : ℚ) +
              (digitsToNat fracDigits : ℚ) / (10 : ℚ) ^ fracDigits.length)),
            rest2)
      | some (negE, ed, rest3) =>
        some (JVal.float ((if neg then -1 else 1) *
          (if negE then
            ((digitsToNat intDigits : ℚ) +
              (digitsToNat fracDigits : ℚ) / (10 : ℚ) ^ fracDigits.length) /
              (10 : ℚ) ^ digitsToNat ed
          else
            ((digitsToNat intDigits : ℚ) +
              (digitsToNat fracDigits : ℚ) / (10 : ℚ) ^ fracDigits.length) *
              (10 : ℚ) ^ digitsToNat ed)), rest3)
    else Option.none
  | Option.none => Option.none

/-- Grammar position tags for the single fuelled scanner: a value, the
items of an object, or the items of an array (`first` marks that nothing
has been parsed yet, so the closer may follow immediately). -/
inductive GK where
  | val
  | objK (first : Bool)
  | arrK (first : Bool)
deriving DecidableEq

/-- `py_make_scanner`'s `scan_once` with the object and array item loops of
`JSONObject`/`JSONArray` (json/decoder.py): whitespace is skipped between
tokens, object items are `"key" : value` separated by commas, array items
are values separated by commas, and the constants NaN, Infinity and negative Infinity
are accepted after the number regex fails. -/
def jsonScan : Nat → GK → List Char → Option (JVal × List Char)
  | 0, _, _ => Option.none
  | _ + 1, _, [] => Option.none
  | f + 1, GK.val, c :: cs =>
    if c = '"' then
      match jsonScanStr (cs.length + 1) cs with
      | some (content, rest) => some (JVal.str (String.mk content), rest)
      | Option.none => Option.none
    else if c = '{' then jsonScan f (GK.objK true) (skipWs cs)
    else if c = '[' then jsonScan f (GK.arrK true) (skipWs cs)
    else if c = 'n' ∧ cs.take 3 = ['u', 'l', 'l'] then
      some (JVal.null, cs.drop 3)
    else if c = 't' ∧ cs.take 3 = ['r', 'u', 'e'] then
      some (JVal.bool true, cs.drop 3)
    else if c = 'f' ∧ cs.take 4 = ['a', 'l', 's', 'e'] then
      some (JVal.bool false, cs.drop 4)
    else
      match parseNumberAt (c :: cs) with
      | some r => some r
      | Option.none =>
        if c = 'N' ∧ cs.take 2 = ['a', 'N'] then some (JVal.nan, cs.drop 2)
        else if c = 'I' ∧ cs.take 7 = ['n', 'f', 'i', 'n', 'i', 't', 'y'] then
          some (JVal.inf false, cs.drop 7)
        else if c = '-' ∧ cs.take 8 = ['I', 'n', 'f', 'i', 'n', 'i', 't', 'y'] then
          some (JVal.inf true, cs.drop 8)
        else Option.none
  | f + 1, GK.objK first, c :: cs =>
    if first ∧ c = '}' then some (JVal.obj [], cs)
    else if c = '"' then
      match jsonScanStr (cs.length + 1) cs with
      | Option.none => Option.none
      | some (key, rest1) =>
        match skipWs rest1 with
        | ':' :: rest2 =>
          match jsonScan f GK.val (skipWs rest2) with
          | Option.none => Option.none
          | some (v, rest3) =>
            match skipWs rest3 with
            | ',' :: rest4 =>
              match jsonScan f (GK.objK false) (skipWs rest4) with
              | some (JVal.obj m, rest5) =>
                some (JVal.obj ((String.mk key, v) :: m), rest5)
              | _ => Option.none
            | '}' :: rest4 => some (JVal.obj [(String.mk key, v)], rest4)
            | _ => Option.none
        | _ => Option.none
    else Option.none
  | f + 1, GK.arrK first, c :: cs =>
    if first ∧ c = ']' then some (JVal.arr [], cs)
    else
      match jsonScan f GK.val (c :: cs) with
      | Option.none => Option.none
      | some (v, rest1) =>
        match skipWs rest1 with
        | ',' :: rest2 =>
          match jsonScan f (GK.arrK false) (skipWs rest2) with
          | some (JVal.arr xs, rest3) => some (JVal.arr (v :: xs), rest3)
          | _ => Option.none
        | ']' :: rest2 => some (JVal.arr [v], rest2)
        | _ => Option.none

/-- `decoder.raw_decode(s)`: parse one JSON value at position 0, returning
it with the unconsumed remainder.  The fuel bounds scanner steps; two per
character plus slack always suffices. -/
def raw_decode (s : List Char) : Option (JVal × List Char) :=
  jsonScan (2 * s.length + 2) GK.val s

/-- `dict.get` - Python keeps the last of duplicate keys. -/
def pyGet (m : List (String × JVal)) (k : String) : Option JVal :=
  (m.reverse.find? (fun p => p.1 = k)).map (fun p => p.2)

/-- `json.loads`: skip leading whitespace, `raw_decode`, and require only
whitespace after the value. -/
def json_loads (s : String) : Option JVal :=
  match raw_decode (skipWs s.data) with
  | some (v, rest) => if skipWs rest = [] then some v else Option.none
  | Option.none => Option.none

/-- The scanning loop of `_recover_posts_from_raw_result` (lines 386-395):
at each `{`, try `raw_decode`; return `obj["posts"]` for the first decoded
dict whose `"posts"` value is a list, else keep scanning. -/
def recover_posts_go : List Char → List JVal
  | [] => []
  | c :: cs =>
    if c = '{' then
      match raw_decode (c :: cs) with
      | some (JVal.obj m, _) =>
        match pyGet m "posts" with
        | some (JVal.arr ps) => ps
        | _ => recover_posts_go cs
      | _ => recover_posts_go cs
    else recover_posts_go cs

/-- `_recover_posts_from_raw_result` (instagram_scraper.py lines 380-396). -/
def recover_posts_from_raw_result (raw : String) : List JVal :=
  recover_posts_go raw.data

/-- The scanning loop of `_extract_json_object_with_key` (browser_use_agent.py
lines 506-519): the same scan, but any decoded dict containing the key is
returned. -/
def extract_json_object_with_key_go (key : String) :
    List Char → Option (List (String × JVal))
  | [] => Option.none
  | c :: cs =>
    if c = '{' then
      match raw_decode (c :: cs) with
      | some (JVal.obj m, _) =>
        if (m.find? (fun p => p.1 = key)).isSome then some m
        else extract_json_object_with_key_go key cs
      | _ => extract_json_object_with_key_go key cs
    else extract_json_object_with_key_go key cs

/-- `_extract_json_object_with_key` (browser_use_agent.py lines 506-519). -/
def extract_json_object_with_key (text : String) (key : String) :
    Option (List (String × JVal)) :=
  extract_json_object_with_key_go key text.data

example : raw_decode "\x7b\"a\": \x7b\"b\": []\x7d, \"a\": 3\x7d rest".data =
    some (JVal.obj [("a", JVal.obj [("b", JVal.arr [])]), ("a", JVal.int 3)],
      " rest".data) := rfl

example : pyGet [("a", JVal.obj [("b", JVal.arr [])]), ("a", JVal.int 3)] "a" =
    some (JVal.int 3) := rfl

example : json_loads " \x7b\"posts\": [1]\x7d " =
    some (JVal.obj [("posts", JVal.arr [JVal.int 1])]) := rfl

example : recover_posts_from_raw_result
    "noise \x7b\"posts\": [true, \"x\"]\x7d tail" =
    [JVal.bool true, JVal.str "x"] := rfl

/-- C7 counterexample: the string `x \x7b"posts": 0\x7d` is not strict JSON,
and it contains a balanced JSON object whose top-level keys include
"posts" - the sibling extractor finds and returns exactly that object - yet
`_recover_posts_from_raw_result` returns `[]` instead of the object's
contents, because line 394 additionally requires the "posts" value to be a
list. -/
theorem C7_recovery_counterexample :
    json_loads "x \x7b\"posts\": 0\x7d" = Option.none ∧
    extract_json_object_with_key "x \x7b\"posts\": 0\x7d" "posts" =
      some [("posts", JVal.int 0)] ∧
    recover_posts_from_raw_result "x \x7b\"posts\": 0\x7d" = [] :=
  ⟨rfl, rfl, rfl⟩

/-- C7 (amended): scanning left to right, the recovery returns the `"posts"`
list of the first `\x7b`-position whose suffix `raw_decode`s to a dict whose
`"posts"` value is a list; a decodable dict at the first `\x7b` whose
`"posts"` value is absent or not a list is skipped and scanning continues
after its opening brace; and a string with no `\x7b` at all recovers `[]`. -/
theorem C7_recovery_scans_for_posts_list :
    (∀ (pre rts : List Char) (m : List (String × JVal)) (ps : List JVal)
      (tl : List Char), '{' ∉ pre →
      raw_decode ('{' :: rts) = some (JVal.obj m, tl) →
      pyGet m "posts" = some (JVal.arr ps) →
      recover_posts_from_raw_result (String.mk (pre ++ '{' :: rts)) = ps) ∧
    (∀ (pre rts : List Char) (m : List (String × JVal)) (tl : List Char),
      '{' ∉ pre →
      raw_decode ('{' :: rts) = some (JVal.obj m, tl) →
      (∀ ps, pyGet m "posts" ≠ some (JVal.arr ps)) →
      recover_posts_from_raw_result (String.mk (pre ++ '{' :: rts)) =
        recover_posts_go rts) ∧
    (∀ s : List Char, '{' ∉ s →
      recover_posts_from_raw_result (String.mk s) = []) := by
  refine ⟨?_, ?_, ?_⟩
  · intro pre rts m ps tl
    induction pre with
    | nil =>
      intro _ hdec hposts
      show recover_posts_go ('{' :: rts) = ps
      unfold recover_posts_go
      rw [if_pos rfl]
      split
      · rename_i m2 tl2 heq
        rw [hdec] at heq
        injection heq with heq1
        injection heq1 with heq2 heq3
        injection heq2 with heq4
        subst heq4
        split
        · rename_i ps2 heq5
          rw [hposts] at heq5
          injection heq5 with heq6
          injection heq6 with heq7
          rw [heq7]
        · rename_i hno
          exact absurd hposts (hno ps)
      · rename_i hno
        exact absurd hdec (hno m tl)
    | cons c pre2 ih =>
      intro hpre hdec hposts
      have hc : ¬ c = '{' := by
        intro h
        apply hpre
        rw [← h]
        exact List.mem_cons_self _ _
      show recover_posts_go (c :: (pre2 ++ '{' :: rts)) = ps
      unfold recover_posts_go
      rw [if_neg hc]
      exact ih (fun hmem => hpre (List.mem_cons_of_mem c hmem)) hdec hposts
  · intro pre rts m tl
    induction pre with
    | nil =>
      intro _ hdec hnone
      show recover_posts_go ('{' :: rts) = recover_posts_go rts
      conv_lhs => rw [recover_posts_go]
      rw [if_pos rfl]
      split
      · rename_i m2 tl2 heq
        rw [hdec] at heq
        injection heq with heq1
        injection heq1 with heq2 heq3
        injection heq2 with heq4
        subst heq4
        split
        · rename_i ps2 heq5
          exact absurd heq5 (hnone ps2)
        · rfl
      · rename_i hno
        exact absurd hdec (hno m tl)
    | cons c pre2 ih =>
      intro hpre hdec hnone
      have hc : ¬ c = '{' := by
        intro h
        apply hpre
        rw [← h]
        exact List.mem_cons_self _ _
      show recover_posts_go (c :: (pre2 ++ '{' :: rts)) = recover_posts_go rts
      conv_lhs => rw [recover_posts_go]
      rw [if_neg hc]
      exact ih (fun hmem => hpre (List.mem_cons_of_mem c hmem)) hdec hnone
  · intro s
    induction s with
    | nil =>
      intro _
      rfl
    | cons c cs ih =>
      intro hs
      have hc : ¬ c = '{' := by
        intro h
        apply hs
        rw [← h]
        exact List.mem_cons_self _ _
      show recover_posts_go (c :: cs) = []
      unfold recover_posts_go
      rw [if_neg hc]
      exact ih (fun hmem => hs (List.mem_cons_of_mem c hmem))

/-- C7 witness: on `agent said: \x7b"posts": [42]\x7d` - prose followed by a
decodable object with a list-valued "posts" - the recovery returns the
list. -/
theorem C7_recovery_scans_witness :
    recover_posts_from_raw_result "agent said: \x7b\"posts\": [42]\x7d" =
      [JVal.int 42] := by
  have h := C7_recovery_scans_for_posts_list.1 "agent said: ".data
    "\"posts\": [42]\x7d".data [("posts", JVal.arr [JVal.int 42])]
    [JVal.int 42] [] (by decide) rfl rfl
  exact h
